import Mathlib

/-!
# XMACC (xormac.h) and the Panama declarations (panama.h)

A shallow embedding of `XMACC_Base<T>` from `xormac.h` and of the declarations of
`panama.h`.

Memory is modelled at the byte level: a `byte` buffer and a `HashWordType` array are
both the list of the bytes they occupy, a byte being a natural number.  Machine words
(`word32`) are natural numbers, reduced modulo `2^32` wherever the C++ arithmetic can
wrap.  A C++ exception is the `error` branch of `Except`.
-/

set_option maxRecDepth 100000

namespace CryptoPP

/-! ## Memory helpers -/

/-- The C library call `memcpy(dst + off, src, src.length)` on the byte list `dst`. -/
def memcpy (dst : List Nat) (off : Nat) (src : List Nat) : List Nat :=
  dst.take off ++ src ++ dst.drop (off + src.length)

/-- The C library call `memset(dst + off, v, n)` on the byte list `dst`. -/
def memset (dst : List Nat) (off : Nat) (v : Nat) (n : Nat) : List Nat :=
  memcpy dst off (List.replicate n v)

/-- An in-place call `F(p, p, n)`: the first `n` bytes of `p` are replaced by their
image under `f`. -/
def inPlace (f : List Nat → List Nat) (p : List Nat) (n : Nat) : List Nat :=
  memcpy p 0 (f (p.take n))

/-- The exceptions thrown by the code embedded here, and a failed `assert`. -/
inductive Exception where
  | InvalidArgument
  | NotImplemented
  | InvalidKeyLength
  | AssertionFailed
  deriving DecidableEq, Repr

/-! ## The template argument `T` and the iterated-hash scaffold -/

/-- The members of the template argument `T` (the underlying iterated hash) that
`XMACC_Base<T>` uses. `WORDSIZE` is `sizeof(T::HashWordType)`. -/
structure HashT where
  DIGESTSIZE : Nat
  BLOCKSIZE : Nat
  WORDSIZE : Nat
  CorrectEndianess : List Nat → List Nat
  Transform : List Nat → List Nat → List Nat

/-- Helpers of the iterated-hash scaffold (`iterhash.h`, `misc.h`), which is not among
the sources; each is taken as a parameter.  `CorrectEndianess` is the member inherited
from `IteratedHash<HashWordType, ByteOrderClass, BLOCKSIZE, ..>`, `GetBitCountHi` and
`GetBitCountLo` are functions of `m_countLo` and `m_countHi`, and `wordBytes` gives the
bytes a `HashWordType` value occupies in memory. -/
structure Scaffold where
  CorrectEndianess : List Nat → List Nat
  ByteReverse : Nat → Nat
  GetBitCountHi : Nat → Nat → Nat
  GetBitCountLo : Nat → Nat → Nat
  wordBytes : Nat → List Nat

/-- The data members of `XMACC_Base<T>`: its own (`m_key`, `m_buffer`, `m_counter`,
`m_index`) and those inherited from `IteratedHash` (`m_data`, `m_digest`, `m_countLo`,
`m_countHi`). -/
structure XMACC_Base where
  m_key : List Nat
  m_buffer : List Nat
  m_counter : Nat
  m_index : Nat
  m_data : List Nat
  m_digest : List Nat
  m_countLo : Nat
  m_countHi : Nat
  deriving DecidableEq, Repr

attribute [ext] XMACC_Base

namespace XMACC_Base

/-- The enumerator `DIGESTSIZE = 4+T::DIGESTSIZE`. -/
def DIGESTSIZE (T : HashT) : Nat := 4 + T.DIGESTSIZE

/-- The key length `DigestSizeSubtract4Workaround<T>::RESULT = T::DIGESTSIZE-4`. -/
def KEYLENGTH (T : HashT) : Nat := T.DIGESTSIZE - 4

/-- The member `DigestSize()`, overridden to return `DIGESTSIZE`. -/
def DigestSize (T : HashT) : Nat := DIGESTSIZE T

/-- The member `IVSize()`. -/
def IVSize : Nat := 4

/-- The member `CurrentCounter()`. -/
def CurrentCounter (s : XMACC_Base) : Nat := s.m_counter

/-- The bytes `WriteWord32(output, value)` stores at `output[0..3]`. -/
def WriteWord32 (value : Nat) : List Nat :=
  [(value >>> 24) % 256, (value >>> 16) % 256, (value >>> 8) % 256, value % 256]

/-- Modelled from the spec: `GetWord(false, BIG_ENDIAN_ORDER, w, p)` of `misc.h`, which
is not among the sources: the 32-bit value of the four bytes at `p`, most significant
byte first. -/
def GetWord (p : List Nat) : Nat :=
  (p.getD 0 0 % 256) * 2 ^ 24 + (p.getD 1 0 % 256) * 2 ^ 16 + (p.getD 2 0 % 256) * 2 ^ 8
    + p.getD 3 0 % 256

/-- The private member `Init()`. -/
def Init (T : HashT) (s : XMACC_Base) : XMACC_Base :=
  { s with m_index := 0x80000000, m_digest := memset s.m_digest 0 0 T.DIGESTSIZE }

/-- Modelled from the spec: `Restart()` of the iterated-hash scaffold, which is not
among the sources: it clears the byte count and calls the virtual `Init()`
("reinit for next use"). -/
def Restart (T : HashT) (s : XMACC_Base) : XMACC_Base :=
  Init T { s with m_countLo := 0, m_countHi := 0 }

/-- The private member `XorDigest(digest, buffer)`: the first
`T::DIGESTSIZE/sizeof(HashWordType)` words of `digest` are xored with those of
`buffer`. -/
def XorDigest (T : HashT) (digest buffer : List Nat) : List Nat :=
  let n := T.DIGESTSIZE / T.WORDSIZE * T.WORDSIZE
  List.zipWith (fun a b => a ^^^ b) (digest.take n) (buffer.take n) ++ digest.drop n

/-- The private member `vTransform(input)`. -/
def vTransform (T : HashT) (s : XMACC_Base) (input : List Nat) : XMACC_Base :=
  let b1 := memcpy s.m_buffer 0 (s.m_key.take (KEYLENGTH T))
  let index := (s.m_index + 1) % 2 ^ 32
  let b2 := memcpy b1 (KEYLENGTH T) (WriteWord32 index)
  let b3 := inPlace T.CorrectEndianess b2 T.DIGESTSIZE
  let b4 := T.Transform b3 input
  { s with m_index := index, m_buffer := b4, m_digest := XorDigest T s.m_digest b4 }

/-- Modelled from the spec: `HashBlock` of the iterated-hash scaffold, which is not
among the sources: the full block in `m_data` is byte-order corrected and handed to the
virtual `vTransform`. -/
def HashBlock (T : HashT) (S : Scaffold) (s : XMACC_Base) : XMACC_Base :=
  let d := inPlace S.CorrectEndianess s.m_data T.BLOCKSIZE
  vTransform T { s with m_data := d } d

/-- Modelled from the spec: `Update` of the iterated-hash scaffold for one input byte
(the scaffold is not among the sources): the byte is stored in the block-sized
accumulation buffer `m_data`, the byte count advances (with carry into `m_countHi`),
and a block that has become full is hashed. -/
def UpdateByte (T : HashT) (S : Scaffold) (s : XMACC_Base) (b : Nat) : XMACC_Base :=
  let num := s.m_countLo % T.BLOCKSIZE
  let lo := (s.m_countLo + 1) % 2 ^ (8 * T.WORDSIZE)
  let hi := if lo = 0 then (s.m_countHi + 1) % 2 ^ (8 * T.WORDSIZE) else s.m_countHi
  let s1 := { s with m_data := memcpy s.m_data num [b], m_countLo := lo, m_countHi := hi }
  if num + 1 = T.BLOCKSIZE then HashBlock T S s1 else s1

/-- Modelled from the spec: `Update(input, length)` of the iterated-hash scaffold, which
is not among the sources: the input bytes are accumulated in order, each full block
being hashed as soon as it is complete. -/
def Update (T : HashT) (S : Scaffold) (s : XMACC_Base) (input : List Nat) : XMACC_Base :=
  input.foldl (UpdateByte T S) s

/-- Modelled from the spec: `PadLastBlock(lastBlockSize, padFirst)` of the
iterated-hash scaffold, which is not among the sources: the pad byte follows the
buffered bytes and zeros fill the block up to `lastBlockSize`; when they do not fit,
the block is filled with zeros and hashed, and a new block starts with `lastBlockSize`
zeros. -/
def PadLastBlock (T : HashT) (S : Scaffold) (s : XMACC_Base) (lastBlockSize : Nat)
    (padFirst : Nat) : XMACC_Base :=
  let num := s.m_countLo % T.BLOCKSIZE
  let d1 := memcpy s.m_data num [padFirst]
  let num := num + 1
  if num ≤ lastBlockSize then
    { s with m_data := memset d1 num 0 (lastBlockSize - num) }
  else
    let s1 := HashBlock T S { s with m_data := memset d1 num 0 (T.BLOCKSIZE - num) }
    { s1 with m_data := memset s1.m_data 0 0 lastBlockSize }

/-- Modelled from the spec: `ThrowIfInvalidTruncatedSize(size)` of `cryptlib.h`, which
is not among the sources: an error is raised when the requested size is 0 or greater
than `DigestSize()`. -/
def ThrowIfInvalidTruncatedSize (T : HashT) (size : Nat) : Except Exception Unit :=
  if size = 0 ∨ size > DigestSize T then .error .InvalidArgument else .ok ()

/-- Lines 121-125 of `TruncatedFinal`, repeated as lines 147-151 of `TruncatedVerify`:
the last message block is padded, the byte-reversed bit count is stored in its last two
words, and the block is transformed. -/
def finishMessage (T : HashT) (S : Scaffold) (s : XMACC_Base) : XMACC_Base :=
  let s1 := PadLastBlock T S s (T.BLOCKSIZE - 2 * T.WORDSIZE) 0x80
  let d1 := inPlace S.CorrectEndianess s1.m_data (T.BLOCKSIZE - 2 * T.WORDSIZE)
  let size := d1.length / T.WORDSIZE
  let d2 := memcpy d1 ((size - 2) * T.WORDSIZE)
    (S.wordBytes (S.ByteReverse (S.GetBitCountHi s1.m_countLo s1.m_countHi)))
  let d3 := memcpy d2 ((size - 1) * T.WORDSIZE)
    (S.wordBytes (S.ByteReverse (S.GetBitCountLo s1.m_countLo s1.m_countHi)))
  vTransform T { s1 with m_data := d3 } d3

/-- Lines 127-134 of `TruncatedFinal` and lines 153-160 of `TruncatedVerify`: the block
that ends in the four counter bytes `ctr` is transformed from the key with index 0 and
xored into the digest. `ctr` is `WriteWord32(++m_counter)` when generating and the
first four bytes of the MAC when verifying. -/
def counterBlock (T : HashT) (s : XMACC_Base) (ctr : List Nat) : XMACC_Base :=
  let b1 := memcpy s.m_buffer 0 (s.m_key.take (KEYLENGTH T))
  let b2 := memcpy b1 (KEYLENGTH T) (WriteWord32 0)
  let d1 := memset s.m_data 0 0 (T.BLOCKSIZE - 4)
  let d2 := memcpy d1 (T.BLOCKSIZE - 4) ctr
  let b3 := inPlace T.CorrectEndianess b2 T.DIGESTSIZE
  let d3 := inPlace T.CorrectEndianess d2 T.BLOCKSIZE
  let b4 := T.Transform b3 d3
  { s with m_buffer := b4, m_data := d3, m_digest := XorDigest T s.m_digest b4 }

/-- The member `TruncatedFinal(mac, size)`: the bytes written to `mac[0..size-1]` and
the object afterwards, or the exception thrown. -/
def TruncatedFinal (T : HashT) (S : Scaffold) (s : XMACC_Base) (size : Nat) :
    Except Exception (List Nat × XMACC_Base) :=
  match ThrowIfInvalidTruncatedSize T size with
  | .error e => .error e
  | .ok _ =>
    if size < 4 then .error .InvalidArgument
    else if s.m_counter = 0xffffffff then .error .InvalidArgument
    else
      let s1 := finishMessage T S s
      let counter := (s1.m_counter + 1) % 2 ^ 32
      let s2 := counterBlock T { s1 with m_counter := counter } (WriteWord32 counter)
      let digest := inPlace T.CorrectEndianess s2.m_digest T.DIGESTSIZE
      let mac := WriteWord32 s2.m_counter ++ digest.take (size - 4)
      .ok (mac, Restart T { s2 with m_digest := digest })

/-- The member `TruncatedVerify(mac, size)`: the result and the object afterwards; the
`assert` on `size` is a failure of its own. -/
def TruncatedVerify (T : HashT) (S : Scaffold) (s : XMACC_Base) (mac : List Nat)
    (size : Nat) : Except Exception (Bool × XMACC_Base) :=
  if ¬ (4 ≤ size ∧ size ≤ DIGESTSIZE T) then .error .AssertionFailed
  else
    let s1 := finishMessage T S s
    let s2 := counterBlock T s1 (mac.take 4)
    let digest := inPlace T.CorrectEndianess s2.m_digest T.DIGESTSIZE
    let macValid := decide ((mac.drop 4).take (size - 4) = digest.take (size - 4))
    .ok (macValid, Restart T { s2 with m_digest := digest })

/-- Modelled from the spec: `ThrowIfInvalidKeyLength(length)` of `cryptlib.h`, which is
not among the sources: an error is raised when the length is outside the declared
bounds, which for `FixedKeyLength<KEYLENGTH>` leave the length `KEYLENGTH` only. -/
def ThrowIfInvalidKeyLength (T : HashT) (length : Nat) : Except Exception Unit :=
  if length ≠ KEYLENGTH T then .error .InvalidKeyLength else .ok ()

/-- The member `CheckedSetKey(.., key, length, params)`, `params` holding the optional
values named `IV` and `XMACC_Counter`. -/
def CheckedSetKey (T : HashT) (s : XMACC_Base) (key : List Nat) (length : Nat)
    (iv : Option (List Nat)) (counter : Option Nat) : Except Exception XMACC_Base :=
  match ThrowIfInvalidKeyLength T length with
  | .error e => .error e
  | .ok _ =>
    let c := match iv with
      | some p => GetWord p
      | none => match counter with
        | some v => v
        | none => 0xffffffff
    .ok (Init T { s with m_counter := c, m_key := memcpy s.m_key 0 (key.take (KEYLENGTH T)) })

/-- The constructor `XMACC(key, counter)`, which calls
`SetKey(key, KEYLENGTH, MakeParameters(Name::XMACC_Counter(), counter))` on the object
`s` that the base constructors leave. -/
def XMACC (T : HashT) (s : XMACC_Base) (key : List Nat) (counter : Nat) :
    Except Exception XMACC_Base :=
  CheckedSetKey T s key (KEYLENGTH T) none (some counter)

/-- The buffer `vTransform` and the counter block start from: the key followed by the
big-endian index, byte-order corrected. -/
def keyedBuffer (T : HashT) (key : List Nat) (index : Nat) : List Nat :=
  T.CorrectEndianess (key ++ WriteWord32 index)

/-- The digest `TruncatedFinal` copies to `mac + 4` and `TruncatedVerify` compares with
`mac + 4`: the accumulator after the counter block, byte-order corrected (lines 137 and
162). `s` is the object after the last message block. -/
def finalDigest (T : HashT) (s : XMACC_Base) (ctr : List Nat) : List Nat :=
  inPlace T.CorrectEndianess (counterBlock T s ctr).m_digest T.DIGESTSIZE

/-- Two objects agree on everything that was absorbed: key, block index, digest, byte
count and the first `n` bytes of `m_data`. The scratch contents (`m_buffer`, the rest
of `m_data`) and the counter are left free. -/
structure AgreeUpTo (n : Nat) (s t : XMACC_Base) : Prop where
  key : s.m_key = t.m_key
  index : s.m_index = t.m_index
  digest : s.m_digest = t.m_digest
  countLo : s.m_countLo = t.m_countLo
  countHi : s.m_countHi = t.m_countHi
  data : s.m_data.take n = t.m_data.take n

/-- Two objects hold the same key and have absorbed the same input: they agree up to
the bytes buffered in `m_data`. -/
def Agree (T : HashT) (s t : XMACC_Base) : Prop :=
  AgreeUpTo (s.m_countLo % T.BLOCKSIZE) s t

/-- The object `o` with the key, the counter, the start index and a zero digest: what
the constructor `XMACC(key, counter)` makes of a newly constructed `o`. -/
def keyed (T : HashT) (o : XMACC_Base) (key : List Nat) (c : Nat) : XMACC_Base :=
  { o with m_key := key, m_counter := c, m_index := 0x80000000,
           m_digest := List.replicate T.DIGESTSIZE 0 }

/-- The spec's scenario "MAC(key, message) truncated to `size` bytes": the object `o`
is keyed by the constructor `XMACC(key, counter)`, absorbs the message, and
`TruncatedFinal` writes the MAC. -/
def computeMAC (T : HashT) (S : Scaffold) (o : XMACC_Base) (key : List Nat) (counter : Nat)
    (msg : List Nat) (size : Nat) : Except Exception (List Nat) :=
  match XMACC T o key counter with
  | .error e => .error e
  | .ok k => (TruncatedFinal T S (Update T S k msg) size).map Prod.fst

/-- The spec's scenario "TruncatedVerify(same key, message, tag)": the object `o` is
keyed by the constructor `XMACC(key)`, whose counter argument defaults to 0xffffffff,
absorbs the message, and `TruncatedVerify` checks the tag. -/
def verifyMAC (T : HashT) (S : Scaffold) (o : XMACC_Base) (key : List Nat)
    (msg : List Nat) (mac : List Nat) (size : Nat) : Except Exception Bool :=
  match XMACC T o key 0xffffffff with
  | .error e => .error e
  | .ok k => (TruncatedVerify T S (Update T S k msg) mac size).map Prod.fst

/-- The digest `verifyMAC` recomputes when the counter bytes of the tag are `ctr`. -/
def recomputedDigest (T : HashT) (S : Scaffold) (o : XMACC_Base) (key : List Nat)
    (msg : List Nat) (ctr : List Nat) : List Nat :=
  finalDigest T (finishMessage T S (Update T S (keyed T o key 0xffffffff) msg)) ctr

/-- A call made on an `XMACC` object once it is keyed. -/
inductive Call where
  | Update (input : List Nat)
  | TruncatedFinal (size : Nat)
  | TruncatedVerify (mac : List Nat) (size : Nat)

/-- A sequence of calls on one object, with no `SetKey` or `Resynchronize` between them:
the MACs the `TruncatedFinal` calls wrote, in order, and the object at the end, or the
first exception thrown. -/
def run (T : HashT) (S : Scaffold) : XMACC_Base → List Call →
    Except Exception (List (List Nat) × XMACC_Base)
  | s, [] => .ok ([], s)
  | s, .Update input :: rest => run T S (Update T S s input) rest
  | s, .TruncatedFinal size :: rest =>
    match TruncatedFinal T S s size with
    | .error e => .error e
    | .ok (mac, s1) =>
      match run T S s1 rest with
      | .error e => .error e
      | .ok (macs, s2) => .ok (mac :: macs, s2)
  | s, .TruncatedVerify mac size :: rest =>
    match TruncatedVerify T S s mac size with
    | .error e => .error e
    | .ok (_, s1) => run T S s1 rest

/-- The member `Resynchronize(IV)`: the counter is read from the four bytes at `IV` and
the object is restarted. -/
def Resynchronize (T : HashT) (s : XMACC_Base) (IV : List Nat) : XMACC_Base :=
  Restart T { s with m_counter := GetWord IV }

/-- The big-endian 32-bit value of a byte sequence, in the spec's words: each byte in
turn becomes the new lowest byte. -/
def bigEndian32 (p : List Nat) : Nat :=
  p.foldl (fun acc b => acc * 256 + b) 0

/-- Modelled from the spec: `PutWord(false, BIG_ENDIAN_ORDER, block, value)` of `misc.h`,
which is not among the sources: the four bytes of the 32-bit `value`, most significant
byte first. -/
def PutWord (value : Nat) : List Nat :=
  [value / 2 ^ 24 % 256, value / 2 ^ 16 % 256, value / 2 ^ 8 % 256, value % 256]

/-- The member `GetNextIV(IV)`: the bytes written to `IV[0..3]` and the object
afterwards, or the exception thrown. -/
def GetNextIV (s : XMACC_Base) : Except Exception (List Nat × XMACC_Base) :=
  if s.m_counter = 0xffffffff then .error .NotImplemented
  else .ok (PutWord ((s.m_counter + 1) % 2 ^ 32), s)

/-- The chaining value of the message block `p.2` at position `p.1` (1-based): what
`T::Transform` makes of the initial buffer
`CorrectEndianess(key || big-endian32(0x80000000 + p.1))` and the block. -/
def chainingValue (T : HashT) (key : List Nat) (p : Nat × List Nat) : List Nat :=
  T.Transform (keyedBuffer T key (0x80000000 + p.1)) p.2

/-- The xor of a list of digest-sized values, in the spec's words: starting from zero,
each value is xored in, position by position. -/
def xorAll (T : HashT) (vals : List (List Nat)) : List Nat :=
  vals.foldl (fun acc v => List.zipWith (fun a b => a ^^^ b) acc v)
    (List.replicate T.DIGESTSIZE 0)

/-- The call `TruncatedFinal(mac, size)` followed statement by statement, for what it
leaves behind also when it throws: the exception thrown, if any, the object, and the
caller's buffer `mac`, at the moment control leaves the function. -/
def TruncatedFinalEffect (T : HashT) (S : Scaffold) (s : XMACC_Base) (mac : List Nat)
    (size : Nat) : Option Exception × XMACC_Base × List Nat :=
  match ThrowIfInvalidTruncatedSize T size with
  | .error e => (some e, s, mac)
  | .ok _ =>
    if size < 4 then (some .InvalidArgument, s, mac)
    else if s.m_counter = 0xffffffff then (some .InvalidArgument, s, mac)
    else
      let s1 := finishMessage T S s
      let counter := (s1.m_counter + 1) % 2 ^ 32
      let s2 := counterBlock T { s1 with m_counter := counter } (WriteWord32 counter)
      let mac1 := memcpy mac 0 (WriteWord32 s2.m_counter)
      let digest := inPlace T.CorrectEndianess s2.m_digest T.DIGESTSIZE
      let mac2 := memcpy mac1 4 (digest.take (size - 4))
      (none, Restart T { s2 with m_digest := digest }, mac2)

/-- What the constructors of `XMACC_Base` and `IteratedHash` establish before any key is
set: buffers of the declared sizes with arbitrary content, and a byte count of zero. -/
structure Constructed (T : HashT) (s : XMACC_Base) : Prop where
  key_length : s.m_key.length = KEYLENGTH T
  buffer_length : s.m_buffer.length = T.DIGESTSIZE
  data_length : s.m_data.length = T.BLOCKSIZE
  digest_length : s.m_digest.length = T.DIGESTSIZE
  countLo_zero : s.m_countLo = 0
  countHi_zero : s.m_countHi = 0

/-- The buffers of the object have their declared sizes. -/
structure Valid (T : HashT) (s : XMACC_Base) : Prop where
  key_length : s.m_key.length = KEYLENGTH T
  buffer_length : s.m_buffer.length = T.DIGESTSIZE
  data_length : s.m_data.length = T.BLOCKSIZE
  digest_length : s.m_digest.length = T.DIGESTSIZE

end XMACC_Base

/-! ## Declarations of panama.h -/

namespace Panama

/-- The size of a `word32` in bytes. -/
def sizeof_word32 : Nat := 4

/-- The number of words of `typedef word32 Stage[8]`. -/
def Stage_length : Nat := 8

/-- The value of `sizeof(Stage)`, the size in bytes of an array of 8 `word32`. -/
def sizeof_Stage : Nat := Stage_length * sizeof_word32

/-- The enumerator `STAGES = 32`. -/
def STAGES : Nat := 32

/-- The number of `word32` elements declared for `m_state`, the second argument of
`FixedSizeSecBlock<word32, 17*2 + STAGES*sizeof(Stage)>`. -/
def m_state_size : Nat := 17 * 2 + STAGES * sizeof_Stage

end Panama

/-- The member functions `Reset` and `Iterate(count, p, z, y)` of the engine
`Panama<B>`, declared in `panama.h` and defined in `panama.cpp`, which is not among the
sources; both are taken as parameters, over any type `E` of engine states.  `Iterate`
gets the optional push blocks `p`, whether output is asked for (`z` not `NULL`) and the
optional key blocks `y`, and gives the new state and the output. -/
structure Panama (E : Type) where
  Reset : E → E
  Iterate : E → Nat → Option (List Nat) → Bool → Option (List Nat) → E × List Nat

/-- The object `PanamaHash<B>`: the engine it derives from and the members of
`IteratedHash<word32, NativeByteOrder, 32>`. -/
structure PanamaHash (E : Type) where
  engine : E
  m_data : List Nat
  m_digest : List Nat
  m_countLo : Nat
  m_countHi : Nat

/-- The object `PanamaMAC_Base<B>`: a `PanamaHash<B>` and the key. -/
structure PanamaMAC_Base (E : Type) extends PanamaHash E where
  m_key : List Nat

namespace PanamaHash

/-- The enumerator `DIGESTSIZE = 32`. -/
def DIGESTSIZE : Nat := 32

/-- The block size, third argument of `IteratedHash<word32, NativeByteOrder, 32>`. -/
def BLOCKSIZE : Nat := 32

/-- The member `Init()`, which calls `Panama<B>::Reset()`. -/
def Init {E : Type} (P : Panama E) (h : PanamaHash E) : PanamaHash E :=
  { h with engine := P.Reset h.engine }

/-- The member `HashEndianCorrectedBlock(data)`, which calls `Iterate(1, data)`: one
push step. -/
def HashEndianCorrectedBlock {E : Type} (P : Panama E) (h : PanamaHash E)
    (data : List Nat) : PanamaHash E :=
  { h with engine := (P.Iterate h.engine 1 (some data) false none).1 }

/-- Modelled from the spec: `HashBlock` of the iterated-hash scaffold, which is not
among the sources: the full block in `m_data`, already in the native byte order of
`NativeByteOrder`, is handed to `HashEndianCorrectedBlock`. -/
def HashBlock {E : Type} (P : Panama E) (h : PanamaHash E) : PanamaHash E :=
  HashEndianCorrectedBlock P h h.m_data

/-- Modelled from the spec: `Update` of the iterated-hash scaffold for one input byte
(the scaffold is not among the sources): the byte is stored in the block-sized
accumulation buffer, the byte count advances, and a block that has become full is
pushed. -/
def UpdateByte {E : Type} (P : Panama E) (h : PanamaHash E) (b : Nat) : PanamaHash E :=
  let num := h.m_countLo % BLOCKSIZE
  let lo := (h.m_countLo + 1) % 2 ^ 32
  let hi := if lo = 0 then (h.m_countHi + 1) % 2 ^ 32 else h.m_countHi
  let h1 := { h with m_data := memcpy h.m_data num [b], m_countLo := lo, m_countHi := hi }
  if num + 1 = BLOCKSIZE then HashBlock P h1 else h1

/-- Modelled from the spec: `Update(input, length)` of the iterated-hash scaffold, which
is not among the sources. -/
def Update {E : Type} (P : Panama E) (h : PanamaHash E) (input : List Nat) : PanamaHash E :=
  input.foldl (UpdateByte P) h

/-- Modelled from the spec: `Restart()` of the iterated-hash scaffold, which is not
among the sources: it clears the byte count and calls the virtual `Init()`, here that of
`PanamaHash`. -/
def Restart {E : Type} (P : Panama E) (h : PanamaHash E) : PanamaHash E :=
  Init P { h with m_countLo := 0, m_countHi := 0 }

/-- Modelled from the spec: `PanamaHash::TruncatedFinal(hash, size)` of `panama.cpp`,
which is not among the sources: the final partial block is padded by the scaffold's
convention `pad` (a function of the buffered bytes and the byte count) and pushed, one
output block is pulled, and its first `size` bytes are the digest; a size of 0 or above
`DIGESTSIZE` is an error. -/
def TruncatedFinal {E : Type} (P : Panama E) (pad : List Nat → Nat → Nat → List Nat)
    (h : PanamaHash E) (size : Nat) : Except Exception (List Nat) :=
  if size = 0 ∨ size > DIGESTSIZE then .error .InvalidArgument
  else
    let block := pad (h.m_data.take (h.m_countLo % BLOCKSIZE)) h.m_countLo h.m_countHi
    let e1 := (P.Iterate h.engine 1 (some block) false none).1
    .ok ((P.Iterate e1 (DIGESTSIZE / 4 / 8) none true none).2.take size)

/-- Two hash objects have absorbed the same input since the same engine state: they
agree on the engine, the byte count and the bytes buffered in `m_data`. -/
structure Agree {E : Type} (h g : PanamaHash E) : Prop where
  engine : h.engine = g.engine
  countLo : h.m_countLo = g.m_countLo
  countHi : h.m_countHi = g.m_countHi
  length_left : h.m_data.length = BLOCKSIZE
  length_right : g.m_data.length = BLOCKSIZE
  data : h.m_data.take (h.m_countLo % BLOCKSIZE) = g.m_data.take (h.m_countLo % BLOCKSIZE)

end PanamaHash

namespace PanamaMAC_Base

/-- The inherited `Update`, acting on the `PanamaHash` part of the object. -/
def Update {E : Type} (P : Panama E) (m : PanamaMAC_Base E) (input : List Nat) :
    PanamaMAC_Base E :=
  { m with toPanamaHash := PanamaHash.Update P m.toPanamaHash input }

/-- The member `Init()`: `PanamaHash<B>::Init()` and then `Update(m_key, m_key.size())`. -/
def Init {E : Type} (P : Panama E) (m : PanamaMAC_Base E) : PanamaMAC_Base E :=
  Update P { m with toPanamaHash := PanamaHash.Init P m.toPanamaHash } m.m_key

/-- Modelled from the spec: `Restart()` of the iterated-hash scaffold, which is not
among the sources: it clears the byte count and calls the virtual `Init()`, here that of
`PanamaMAC_Base`. -/
def Restart {E : Type} (P : Panama E) (m : PanamaMAC_Base E) : PanamaMAC_Base E :=
  Init P { m with m_countLo := 0, m_countHi := 0 }

/-- The member `UncheckedSetKey(userKey, keylength)`: `m_key.Assign(userKey, keylength)`
and then `Restart()`. -/
def UncheckedSetKey {E : Type} (P : Panama E) (m : PanamaMAC_Base E) (userKey : List Nat)
    (keylength : Nat) : PanamaMAC_Base E :=
  Restart P { m with m_key := userKey.take keylength }

/-- The inherited `PanamaHash<B>::TruncatedFinal`: the MAC written. -/
def TruncatedFinal {E : Type} (P : Panama E) (pad : List Nat → Nat → Nat → List Nat)
    (m : PanamaMAC_Base E) (size : Nat) : Except Exception (List Nat) :=
  PanamaHash.TruncatedFinal P pad m.toPanamaHash size

end PanamaMAC_Base

/-- An engine that only records what it is asked to do: `Reset` empties the record and
a push step appends the pushed block. -/
def recordingEngine : Panama (List (List Nat)) where
  Reset := fun _ => []
  Iterate := fun e _ p _ _ =>
    match p with
    | some block => (e ++ [block], [])
    | none => (e, [])

/-! ## A small instance -/

/-- A checksum in the place of `T`: 16-byte digest, 64-byte block, 4-byte words in the
native byte order; `Transform` adds the four 16-byte quarters of the block to the
state, byte by byte. -/
def checksumHash : HashT where
  DIGESTSIZE := 16
  BLOCKSIZE := 64
  WORDSIZE := 4
  CorrectEndianess := fun x => x
  Transform := fun d x => (List.range d.length).map (fun i =>
    (d.getD i 0 + x.getD i 0 + x.getD (i + 16) 0 + x.getD (i + 32) 0
      + x.getD (i + 48) 0) % 256)

/-- Scaffold helpers for 32-bit hash words on a little-endian machine whose byte order
is that of the hash. -/
def scaffold32 : Scaffold where
  CorrectEndianess := fun x => x
  ByteReverse := fun v =>
    (v % 256) * 2 ^ 24 + (v / 2 ^ 8 % 256) * 2 ^ 16 + (v / 2 ^ 16 % 256) * 2 ^ 8
      + v / 2 ^ 24 % 256
  GetBitCountHi := fun lo hi => (lo / 2 ^ 29 + hi * 8) % 2 ^ 32
  GetBitCountLo := fun lo _ => lo * 8 % 2 ^ 32
  wordBytes := fun v => [v % 256, v / 2 ^ 8 % 256, v / 2 ^ 16 % 256, v / 2 ^ 24 % 256]

/-- An object as the constructors leave it, its buffers filled with the byte `fill`. -/
def rawObject (T : HashT) (fill : Nat) : XMACC_Base where
  m_key := List.replicate (XMACC_Base.KEYLENGTH T) fill
  m_buffer := List.replicate T.DIGESTSIZE fill
  m_counter := fill
  m_index := fill
  m_data := List.replicate T.BLOCKSIZE fill
  m_digest := List.replicate T.DIGESTSIZE fill
  m_countLo := 0
  m_countHi := 0

/-- The compile-time requirements on the template argument and on the scaffold helpers:
the sizes are whole numbers of hash words, the block size divides the range of the byte
count, a block has room for the two bit-count words and for the counter, and the
byte-order corrections and `T::Transform` work in place. -/
structure WF (T : HashT) (S : Scaffold) : Prop where
  digest_ge : 4 ≤ T.DIGESTSIZE
  word_pos : 0 < T.WORDSIZE
  word_dvd_digest : T.WORDSIZE ∣ T.DIGESTSIZE
  word_dvd_block : T.WORDSIZE ∣ T.BLOCKSIZE
  block_ge : 2 * T.WORDSIZE ≤ T.BLOCKSIZE
  block_ge_four : 4 ≤ T.BLOCKSIZE
  block_dvd : T.BLOCKSIZE ∣ 2 ^ (8 * T.WORDSIZE)
  T_correct_length : ∀ x, (T.CorrectEndianess x).length = x.length
  T_transform_length : ∀ d x, (T.Transform d x).length = d.length
  S_correct_length : ∀ x, (S.CorrectEndianess x).length = x.length
  S_wordBytes_length : ∀ v, (S.wordBytes v).length = T.WORDSIZE

/-! ## Lemmas on the memory helpers -/

theorem memcpy_length (dst src : List Nat) (off : Nat) (h : off + src.length ≤ dst.length) :
    (memcpy dst off src).length = dst.length := by
  simp only [memcpy, List.length_append, List.length_take, List.length_drop]
  omega

theorem memcpy_zero_full (dst src : List Nat) (h : dst.length ≤ src.length) :
    memcpy dst 0 src = src := by
  simp [memcpy, List.drop_eq_nil_of_le h]

theorem memcpy_tail (dst src : List Nat) (off : Nat) (h : dst.length = off + src.length) :
    memcpy dst off src = dst.take off ++ src := by
  simp [memcpy, List.drop_eq_nil_of_le (Nat.le_of_eq h)]

theorem take_memcpy_end (dst src : List Nat) (off : Nat) (h : off ≤ dst.length) :
    (memcpy dst off src).take (off + src.length) = dst.take off ++ src := by
  have h1 : (dst.take off ++ src).length = off + src.length := by
    simp [List.length_take, Nat.min_eq_left h]
  unfold memcpy
  rw [← h1, List.take_left]

theorem drop_memcpy_end (dst src : List Nat) (off : Nat) (h : off ≤ dst.length) :
    (memcpy dst off src).drop (off + src.length) = dst.drop (off + src.length) := by
  have h1 : (dst.take off ++ src).length = off + src.length := by
    simp [List.length_take, Nat.min_eq_left h]
  unfold memcpy
  rw [← h1, List.drop_left, h1]

theorem inPlace_full (f : List Nat → List Nat) (p : List Nat) (n : Nat)
    (hf : ∀ x, (f x).length = x.length) (h : p.length ≤ n) : inPlace f p n = f p := by
  unfold inPlace
  rw [List.take_of_length_le h]
  exact memcpy_zero_full _ _ (by rw [hf])

theorem inPlace_length (f : List Nat → List Nat) (p : List Nat) (n : Nat)
    (hf : ∀ x, (f x).length = x.length) : (inPlace f p n).length = p.length := by
  unfold inPlace
  apply memcpy_length
  rw [hf, List.length_take]
  omega

namespace XMACC_Base

/-! ## The block transform -/

theorem WriteWord32_length (v : Nat) : (WriteWord32 v).length = 4 := rfl

theorem buffer_setup (T : HashT) (S : Scaffold) (hwf : WF T S) (buf key : List Nat)
    (index : Nat) (hb : buf.length = T.DIGESTSIZE) (hk : key.length = KEYLENGTH T) :
    inPlace T.CorrectEndianess
      (memcpy (memcpy buf 0 (key.take (KEYLENGTH T))) (KEYLENGTH T) (WriteWord32 index))
      T.DIGESTSIZE = keyedBuffer T key index := by
  have h4 := hwf.digest_ge
  have hkl : KEYLENGTH T + 4 = T.DIGESTSIZE := by unfold KEYLENGTH; omega
  have e1 : key.take (KEYLENGTH T) = key := List.take_of_length_le (by omega)
  have l1 : (memcpy buf 0 key).length = T.DIGESTSIZE := by
    rw [memcpy_length _ _ _ (by omega)]; exact hb
  have e2 : memcpy (memcpy buf 0 key) (KEYLENGTH T) (WriteWord32 index)
      = key ++ WriteWord32 index := by
    rw [memcpy_tail _ _ _ (by rw [l1, WriteWord32_length]; omega)]
    have := take_memcpy_end buf key 0 (Nat.zero_le _)
    simp only [Nat.zero_add, List.take_zero, List.nil_append] at this
    rw [← hk, this]
  rw [e1, e2]
  apply inPlace_full _ _ _ hwf.T_correct_length
  simp [WriteWord32_length]; omega

theorem XorDigest_length (T : HashT) (S : Scaffold) (hwf : WF T S) (d b : List Nat)
    (hd : d.length = T.DIGESTSIZE) (hb : b.length = T.DIGESTSIZE) :
    (XorDigest T d b).length = T.DIGESTSIZE := by
  have hn : T.DIGESTSIZE / T.WORDSIZE * T.WORDSIZE = T.DIGESTSIZE :=
    Nat.div_mul_cancel hwf.word_dvd_digest
  simp [XorDigest, hn, hd, hb]

theorem vTransform_eq (T : HashT) (S : Scaffold) (hwf : WF T S) (s : XMACC_Base)
    (hv : Valid T s) (input : List Nat) :
    vTransform T s input =
      { s with
        m_index := (s.m_index + 1) % 2 ^ 32
        m_buffer := T.Transform (keyedBuffer T s.m_key ((s.m_index + 1) % 2 ^ 32)) input
        m_digest := XorDigest T s.m_digest
          (T.Transform (keyedBuffer T s.m_key ((s.m_index + 1) % 2 ^ 32)) input) } := by
  simp only [vTransform]
  rw [buffer_setup T S hwf _ _ _ hv.buffer_length hv.key_length]

theorem keyedBuffer_length (T : HashT) (S : Scaffold) (hwf : WF T S) (key : List Nat)
    (index : Nat) (hk : key.length = KEYLENGTH T) :
    (keyedBuffer T key index).length = T.DIGESTSIZE := by
  have h4 := hwf.digest_ge
  unfold keyedBuffer
  rw [hwf.T_correct_length]
  simp [WriteWord32_length, hk, KEYLENGTH]
  omega

theorem vTransform_valid (T : HashT) (S : Scaffold) (hwf : WF T S) (s : XMACC_Base)
    (hv : Valid T s) (input : List Nat) : Valid T (vTransform T s input) := by
  rw [vTransform_eq T S hwf s hv]
  have hb : (T.Transform (keyedBuffer T s.m_key ((s.m_index + 1) % 2 ^ 32)) input).length
      = T.DIGESTSIZE := by
    rw [hwf.T_transform_length, keyedBuffer_length T S hwf _ _ hv.key_length]
  exact ⟨hv.key_length, hb, hv.data_length, XorDigest_length T S hwf _ _ hv.digest_length hb⟩

/-! ## The counter is neither read nor written while a message is absorbed -/

theorem vTransform_counter (T : HashT) (s : XMACC_Base) (c : Nat) (input : List Nat) :
    vTransform T { s with m_counter := c } input
      = { vTransform T s input with m_counter := c } := rfl

theorem HashBlock_counter (T : HashT) (S : Scaffold) (s : XMACC_Base) (c : Nat) :
    HashBlock T S { s with m_counter := c } = { HashBlock T S s with m_counter := c } := rfl

theorem UpdateByte_counter (T : HashT) (S : Scaffold) (s : XMACC_Base) (c b : Nat) :
    UpdateByte T S { s with m_counter := c } b
      = { UpdateByte T S s b with m_counter := c } := by
  unfold UpdateByte
  dsimp only
  split <;> rfl

theorem Update_counter (T : HashT) (S : Scaffold) (input : List Nat) :
    ∀ (s : XMACC_Base) (c : Nat),
      Update T S { s with m_counter := c } input
        = { Update T S s input with m_counter := c } := by
  induction input with
  | nil => intro s c; rfl
  | cons b rest ih =>
    intro s c
    simp only [Update, List.foldl_cons] at ih ⊢
    rw [UpdateByte_counter, ih]

theorem PadLastBlock_counter (T : HashT) (S : Scaffold) (s : XMACC_Base) (c n p : Nat) :
    PadLastBlock T S { s with m_counter := c } n p
      = { PadLastBlock T S s n p with m_counter := c } := by
  unfold PadLastBlock
  dsimp only
  split <;> rfl

theorem finishMessage_counter (T : HashT) (S : Scaffold) (s : XMACC_Base) (c : Nat) :
    finishMessage T S { s with m_counter := c }
      = { finishMessage T S s with m_counter := c } := by
  unfold finishMessage
  rw [PadLastBlock_counter]
  rfl

theorem vTransform_m_counter (T : HashT) (s : XMACC_Base) (input : List Nat) :
    (vTransform T s input).m_counter = s.m_counter := rfl

theorem UpdateByte_m_counter (T : HashT) (S : Scaffold) (s : XMACC_Base) (b : Nat) :
    (UpdateByte T S s b).m_counter = s.m_counter := by
  unfold UpdateByte
  dsimp only
  split <;> rfl

theorem Update_m_counter (T : HashT) (S : Scaffold) (input : List Nat) :
    ∀ s : XMACC_Base, (Update T S s input).m_counter = s.m_counter := by
  induction input with
  | nil => intro s; rfl
  | cons b rest ih =>
    intro s
    simp only [Update, List.foldl_cons] at ih ⊢
    rw [ih, UpdateByte_m_counter]

theorem PadLastBlock_m_counter (T : HashT) (S : Scaffold) (s : XMACC_Base) (n p : Nat) :
    (PadLastBlock T S s n p).m_counter = s.m_counter := by
  unfold PadLastBlock
  dsimp only
  split <;> rfl

theorem finishMessage_m_counter (T : HashT) (S : Scaffold) (s : XMACC_Base) :
    (finishMessage T S s).m_counter = s.m_counter := by
  unfold finishMessage
  simp only [vTransform_m_counter, PadLastBlock_m_counter]

/-! ## Scratch memory does not influence what is absorbed -/

theorem vTransform_agree (T : HashT) (S : Scaffold) (hwf : WF T S) (s t : XMACC_Base)
    (hs : Valid T s) (ht : Valid T t) (n : Nat) (h : AgreeUpTo n s t) (input : List Nat) :
    AgreeUpTo n (vTransform T s input) (vTransform T t input)
      ∧ (vTransform T s input).m_buffer = (vTransform T t input).m_buffer := by
  rw [vTransform_eq T S hwf s hs, vTransform_eq T S hwf t ht]
  obtain ⟨hk, hi, hd, hlo, hhi, hdata⟩ := h
  refine ⟨⟨hk, ?_, ?_, hlo, hhi, hdata⟩, ?_⟩
  · simp only [hi]
  · simp only [hk, hi, hd]
  · simp only [hk, hi]

theorem HashBlock_eq (T : HashT) (S : Scaffold) (hwf : WF T S) (s : XMACC_Base)
    (hs : Valid T s) :
    HashBlock T S s = vTransform T { s with m_data := S.CorrectEndianess s.m_data }
      (S.CorrectEndianess s.m_data) := by
  unfold HashBlock
  rw [inPlace_full _ _ _ hwf.S_correct_length (Nat.le_of_eq hs.data_length)]

theorem HashBlock_valid (T : HashT) (S : Scaffold) (hwf : WF T S) (s : XMACC_Base)
    (hs : Valid T s) : Valid T (HashBlock T S s) := by
  rw [HashBlock_eq T S hwf s hs]
  apply vTransform_valid T S hwf
  exact ⟨hs.key_length, hs.buffer_length,
    by simp only [hwf.S_correct_length]; exact hs.data_length, hs.digest_length⟩

theorem HashBlock_agree (T : HashT) (S : Scaffold) (hwf : WF T S) (s t : XMACC_Base)
    (hs : Valid T s) (ht : Valid T t) (n m : Nat) (h : AgreeUpTo n s t)
    (hdata : s.m_data = t.m_data) :
    AgreeUpTo m (HashBlock T S s) (HashBlock T S t)
      ∧ (HashBlock T S s).m_data = (HashBlock T S t).m_data := by
  rw [HashBlock_eq T S hwf s hs, HashBlock_eq T S hwf t ht]
  have hs1 : Valid T { s with m_data := S.CorrectEndianess s.m_data } :=
    ⟨hs.key_length, hs.buffer_length,
      by simp only [hwf.S_correct_length]; exact hs.data_length, hs.digest_length⟩
  have ht1 : Valid T { t with m_data := S.CorrectEndianess t.m_data } :=
    ⟨ht.key_length, ht.buffer_length,
      by simp only [hwf.S_correct_length]; exact ht.data_length, ht.digest_length⟩
  have h1 : AgreeUpTo m { s with m_data := S.CorrectEndianess s.m_data }
      { t with m_data := S.CorrectEndianess t.m_data } :=
    ⟨h.key, h.index, h.digest, h.countLo, h.countHi, by simp only [hdata]⟩
  have h2 := vTransform_agree T S hwf _ _ hs1 ht1 m h1 (S.CorrectEndianess s.m_data)
  rw [hdata] at h2 ⊢
  exact ⟨h2.1, rfl⟩

theorem block_pos (T : HashT) (S : Scaffold) (hwf : WF T S) : 0 < T.BLOCKSIZE := by
  have := hwf.block_ge_four
  omega

theorem UpdateByte_agree (T : HashT) (S : Scaffold) (hwf : WF T S) (s t : XMACC_Base)
    (hs : Valid T s) (ht : Valid T t) (h : Agree T s t) (b : Nat) :
    Valid T (UpdateByte T S s b) ∧ Valid T (UpdateByte T S t b)
      ∧ Agree T (UpdateByte T S s b) (UpdateByte T S t b) := by
  have hB := block_pos T S hwf
  have hnum : s.m_countLo % T.BLOCKSIZE < T.BLOCKSIZE := Nat.mod_lt _ hB
  obtain ⟨hk, hi, hd, hlo, hhi, hdata⟩ := h
  have ls : (memcpy s.m_data (s.m_countLo % T.BLOCKSIZE) [b]).length = T.BLOCKSIZE := by
    rw [memcpy_length _ _ _ (by rw [hs.data_length]; simpa using hnum)]
    exact hs.data_length
  have lt : (memcpy t.m_data (s.m_countLo % T.BLOCKSIZE) [b]).length = T.BLOCKSIZE := by
    rw [memcpy_length _ _ _ (by rw [ht.data_length]; simpa using hnum)]
    exact ht.data_length
  have tk : (memcpy s.m_data (s.m_countLo % T.BLOCKSIZE) [b]).take
        (s.m_countLo % T.BLOCKSIZE + 1)
      = (memcpy t.m_data (s.m_countLo % T.BLOCKSIZE) [b]).take
        (s.m_countLo % T.BLOCKSIZE + 1) := by
    have e1 := take_memcpy_end s.m_data [b] (s.m_countLo % T.BLOCKSIZE)
      (by rw [hs.data_length]; omega)
    have e2 := take_memcpy_end t.m_data [b] (s.m_countLo % T.BLOCKSIZE)
      (by rw [ht.data_length]; omega)
    simp only [List.length_singleton] at e1 e2
    rw [e1, e2, hdata]
  unfold Agree UpdateByte
  simp only [← hlo, ← hhi]
  by_cases hfull : s.m_countLo % T.BLOCKSIZE + 1 = T.BLOCKSIZE
  · simp only [hfull, if_true]
    have hs1 : Valid T { s with
        m_data := memcpy s.m_data (s.m_countLo % T.BLOCKSIZE) [b]
        m_countLo := (s.m_countLo + 1) % 2 ^ (8 * T.WORDSIZE)
        m_countHi := if (s.m_countLo + 1) % 2 ^ (8 * T.WORDSIZE) = 0
          then (s.m_countHi + 1) % 2 ^ (8 * T.WORDSIZE) else s.m_countHi } :=
      ⟨hs.key_length, hs.buffer_length, ls, hs.digest_length⟩
    have ht1 : Valid T { t with
        m_data := memcpy t.m_data (s.m_countLo % T.BLOCKSIZE) [b]
        m_countLo := (s.m_countLo + 1) % 2 ^ (8 * T.WORDSIZE)
        m_countHi := if (s.m_countLo + 1) % 2 ^ (8 * T.WORDSIZE) = 0
          then (s.m_countHi + 1) % 2 ^ (8 * T.WORDSIZE) else s.m_countHi } :=
      ⟨ht.key_length, ht.buffer_length, lt, ht.digest_length⟩
    have hd1 : memcpy s.m_data (s.m_countLo % T.BLOCKSIZE) [b]
        = memcpy t.m_data (s.m_countLo % T.BLOCKSIZE) [b] := by
      rw [hfull] at tk
      rwa [List.take_of_length_le (Nat.le_of_eq ls),
        List.take_of_length_le (Nat.le_of_eq lt)] at tk
    have hag := HashBlock_agree T S hwf _ _ hs1 ht1 0
      ((HashBlock T S { s with
        m_data := memcpy s.m_data (s.m_countLo % T.BLOCKSIZE) [b]
        m_countLo := (s.m_countLo + 1) % 2 ^ (8 * T.WORDSIZE)
        m_countHi := if (s.m_countLo + 1) % 2 ^ (8 * T.WORDSIZE) = 0
          then (s.m_countHi + 1) % 2 ^ (8 * T.WORDSIZE) else s.m_countHi }).m_countLo
        % T.BLOCKSIZE)
      ⟨hk, hi, hd, rfl, rfl, rfl⟩ hd1
    exact ⟨HashBlock_valid T S hwf _ hs1, HashBlock_valid T S hwf _ ht1, hag.1⟩
  · simp only [hfull, if_false]
    have hmod : (s.m_countLo + 1) % 2 ^ (8 * T.WORDSIZE) % T.BLOCKSIZE
        = s.m_countLo % T.BLOCKSIZE + 1 := by
      rw [Nat.mod_mod_of_dvd _ hwf.block_dvd, Nat.add_mod,
        Nat.mod_eq_of_lt (show 1 < T.BLOCKSIZE by omega)]
      exact Nat.mod_eq_of_lt (by omega)
    refine ⟨⟨hs.key_length, hs.buffer_length, ls, hs.digest_length⟩,
      ⟨ht.key_length, ht.buffer_length, lt, ht.digest_length⟩, ?_⟩
    refine ⟨hk, hi, hd, rfl, rfl, ?_⟩
    simp only [hmod]
    exact tk

theorem Update_agree (T : HashT) (S : Scaffold) (hwf : WF T S) (input : List Nat) :
    ∀ s t : XMACC_Base, Valid T s → Valid T t → Agree T s t →
      Valid T (Update T S s input) ∧ Valid T (Update T S t input)
        ∧ Agree T (Update T S s input) (Update T S t input) := by
  induction input with
  | nil => intro s t hs ht h; exact ⟨hs, ht, h⟩
  | cons b rest ih =>
    intro s t hs ht h
    obtain ⟨h1, h2, h3⟩ := UpdateByte_agree T S hwf s t hs ht h b
    exact ih _ _ h1 h2 h3

theorem word_offsets (T : HashT) (S : Scaffold) (hwf : WF T S) :
    (T.BLOCKSIZE / T.WORDSIZE - 2) * T.WORDSIZE = T.BLOCKSIZE - 2 * T.WORDSIZE
      ∧ (T.BLOCKSIZE / T.WORDSIZE - 1) * T.WORDSIZE = T.BLOCKSIZE - T.WORDSIZE := by
  have h := Nat.div_mul_cancel hwf.word_dvd_block
  constructor
  · rw [Nat.sub_mul, h]
  · rw [Nat.sub_mul, h, Nat.one_mul]

theorem lastWords (T : HashT) (S : Scaffold) (hwf : WF T S) (m hi lo : List Nat)
    (hm : m.length = T.BLOCKSIZE) (hhi : hi.length = T.WORDSIZE)
    (hlo : lo.length = T.WORDSIZE) :
    memcpy
      (memcpy (inPlace S.CorrectEndianess m (T.BLOCKSIZE - 2 * T.WORDSIZE))
        (((inPlace S.CorrectEndianess m (T.BLOCKSIZE - 2 * T.WORDSIZE)).length
          / T.WORDSIZE - 2) * T.WORDSIZE) hi)
      (((inPlace S.CorrectEndianess m (T.BLOCKSIZE - 2 * T.WORDSIZE)).length
          / T.WORDSIZE - 1) * T.WORDSIZE) lo
      = S.CorrectEndianess (m.take (T.BLOCKSIZE - 2 * T.WORDSIZE)) ++ hi ++ lo := by
  have hge := hwf.block_ge
  have hw := hwf.word_pos
  obtain ⟨o2, o1⟩ := word_offsets T S hwf
  have l1 : (inPlace S.CorrectEndianess m (T.BLOCKSIZE - 2 * T.WORDSIZE)).length
      = T.BLOCKSIZE := by
    rw [inPlace_length _ _ _ hwf.S_correct_length, hm]
  have lc : (S.CorrectEndianess (m.take (T.BLOCKSIZE - 2 * T.WORDSIZE))).length
      = T.BLOCKSIZE - 2 * T.WORDSIZE := by
    rw [hwf.S_correct_length, List.length_take, hm]
    omega
  have t1 : (inPlace S.CorrectEndianess m (T.BLOCKSIZE - 2 * T.WORDSIZE)).take
      (T.BLOCKSIZE - 2 * T.WORDSIZE)
      = S.CorrectEndianess (m.take (T.BLOCKSIZE - 2 * T.WORDSIZE)) := by
    have := take_memcpy_end m (S.CorrectEndianess (m.take (T.BLOCKSIZE - 2 * T.WORDSIZE))) 0
      (Nat.zero_le _)
    simp only [Nat.zero_add, List.take_zero, List.nil_append, lc] at this
    exact this
  rw [l1, o2, o1]
  have l2 : (memcpy (inPlace S.CorrectEndianess m (T.BLOCKSIZE - 2 * T.WORDSIZE))
      (T.BLOCKSIZE - 2 * T.WORDSIZE) hi).length = T.BLOCKSIZE := by
    rw [memcpy_length _ _ _ (by rw [l1, hhi]; omega), l1]
  rw [memcpy_tail _ _ _ (by rw [l2, hlo]; omega)]
  have t2 := take_memcpy_end (inPlace S.CorrectEndianess m (T.BLOCKSIZE - 2 * T.WORDSIZE))
    hi (T.BLOCKSIZE - 2 * T.WORDSIZE) (by rw [l1]; omega)
  have e : T.BLOCKSIZE - 2 * T.WORDSIZE + hi.length = T.BLOCKSIZE - T.WORDSIZE := by
    rw [hhi]; omega
  rw [e, t1] at t2
  rw [t2]

theorem pad_fit (d : List Nat) (num last pad : Nat) (hnum : num < d.length)
    (h1 : num + 1 ≤ last) (h2 : last ≤ d.length) :
    (memset (memcpy d num [pad]) (num + 1) 0 (last - (num + 1))).length = d.length
      ∧ (memset (memcpy d num [pad]) (num + 1) 0 (last - (num + 1))).take last
        = d.take num ++ [pad] ++ List.replicate (last - (num + 1)) 0 := by
  have l1 : (memcpy d num [pad]).length = d.length :=
    memcpy_length _ _ _ (by simpa using hnum)
  have t1 := take_memcpy_end d [pad] num (by omega)
  simp only [List.length_singleton] at t1
  have hz : (List.replicate (last - (num + 1)) 0).length = last - (num + 1) :=
    List.length_replicate _ _
  unfold memset
  constructor
  · rw [memcpy_length _ _ _ (by rw [l1, hz]; omega), l1]
  · have t2 := take_memcpy_end (memcpy d num [pad]) (List.replicate (last - (num + 1)) 0)
      (num + 1) (by rw [l1]; omega)
    have e : num + 1 + (List.replicate (last - (num + 1)) 0).length = last := by
      rw [hz]; omega
    rw [e, t1] at t2
    exact t2

theorem pad_full (d : List Nat) (num pad : Nat) (hnum : num < d.length) :
    (memset (memcpy d num [pad]) (num + 1) 0 (d.length - (num + 1))).length = d.length
      ∧ memset (memcpy d num [pad]) (num + 1) 0 (d.length - (num + 1))
        = d.take num ++ [pad] ++ List.replicate (d.length - (num + 1)) 0 := by
  have l1 : (memcpy d num [pad]).length = d.length :=
    memcpy_length _ _ _ (by simpa using hnum)
  have t1 := take_memcpy_end d [pad] num (by omega)
  simp only [List.length_singleton] at t1
  have hz : (List.replicate (d.length - (num + 1)) 0).length = d.length - (num + 1) :=
    List.length_replicate _ _
  unfold memset
  constructor
  · rw [memcpy_length _ _ _ (by rw [l1, hz]; omega), l1]
  · rw [memcpy_tail _ _ _ (by rw [l1, hz]; omega), t1]

theorem zero_fill (d : List Nat) (last : Nat) (h : last ≤ d.length) :
    (memset d 0 0 last).length = d.length
      ∧ memset d 0 0 last = List.replicate last 0 ++ d.drop last := by
  unfold memset
  constructor
  · rw [memcpy_length _ _ _ (by simpa using h)]
  · simp [memcpy]

theorem PadLastBlock_agree (T : HashT) (S : Scaffold) (hwf : WF T S) (s t : XMACC_Base)
    (hs : Valid T s) (ht : Valid T t) (h : Agree T s t) (last pad : Nat)
    (hlast : last ≤ T.BLOCKSIZE) :
    Valid T (PadLastBlock T S s last pad) ∧ Valid T (PadLastBlock T S t last pad)
      ∧ AgreeUpTo last (PadLastBlock T S s last pad) (PadLastBlock T S t last pad) := by
  have hB := block_pos T S hwf
  obtain ⟨k, buf, c, idx, d, dg, lo, hi⟩ := s
  obtain ⟨k2, buf2, c2, idx2, d2, dg2, lo2, hi2⟩ := t
  obtain ⟨hk, hi, hd, hlo, hhi, hdata⟩ := h
  obtain ⟨sk, sb, sd, sg⟩ := hs
  obtain ⟨tk, tb, td, tg⟩ := ht
  simp only at hk hi hd hlo hhi hdata sk sb sd sg tk tb td tg
  subst hk hi hd hlo hhi
  have hnum : lo % T.BLOCKSIZE < T.BLOCKSIZE := Nat.mod_lt _ hB
  unfold PadLastBlock
  dsimp only
  by_cases hfit : lo % T.BLOCKSIZE + 1 ≤ last
  · simp only [hfit, if_true]
    obtain ⟨l1, t1⟩ := pad_fit d (lo % T.BLOCKSIZE) last pad (by omega) hfit (by omega)
    obtain ⟨l2, t2⟩ := pad_fit d2 (lo % T.BLOCKSIZE) last pad (by omega) hfit (by omega)
    exact ⟨⟨sk, sb, l1.trans sd, sg⟩, ⟨tk, tb, l2.trans td, tg⟩,
      ⟨rfl, rfl, rfl, rfl, rfl, by show List.take _ _ = List.take _ _; rw [t1, t2, hdata]⟩⟩
  · simp only [hfit, if_false]
    obtain ⟨l1, t1⟩ := pad_full d (lo % T.BLOCKSIZE) pad (by omega)
    obtain ⟨l2, t2⟩ := pad_full d2 (lo % T.BLOCKSIZE) pad (by omega)
    rw [sd] at l1 t1
    rw [td] at l2 t2
    have hs1 : Valid T ⟨k, buf, c, idx, memset (memcpy d (lo % T.BLOCKSIZE) [pad])
        (lo % T.BLOCKSIZE + 1) 0 (T.BLOCKSIZE - (lo % T.BLOCKSIZE + 1)), dg, lo, hi⟩ :=
      ⟨sk, sb, l1, sg⟩
    have ht1 : Valid T ⟨k, buf2, c2, idx, memset (memcpy d2 (lo % T.BLOCKSIZE) [pad])
        (lo % T.BLOCKSIZE + 1) 0 (T.BLOCKSIZE - (lo % T.BLOCKSIZE + 1)), dg, lo, hi⟩ :=
      ⟨tk, tb, l2, tg⟩
    have hag := HashBlock_agree T S hwf _ _ hs1 ht1 0 last
      ⟨rfl, rfl, rfl, rfl, rfl, rfl⟩ (by show memset _ _ _ _ = memset _ _ _ _; rw [t1, t2, hdata])
    have v1 := HashBlock_valid T S hwf _ hs1
    have v2 := HashBlock_valid T S hwf _ ht1
    obtain ⟨z1, _⟩ := zero_fill _ last (by rw [v1.data_length]; exact hlast)
    obtain ⟨z2, _⟩ := zero_fill _ last (by rw [v2.data_length]; exact hlast)
    refine ⟨⟨v1.key_length, v1.buffer_length, z1.trans v1.data_length, v1.digest_length⟩,
      ⟨v2.key_length, v2.buffer_length, z2.trans v2.data_length, v2.digest_length⟩,
      ⟨hag.1.key, hag.1.index, hag.1.digest, hag.1.countLo, hag.1.countHi, ?_⟩⟩
    show List.take _ (memset _ _ _ _) = List.take _ (memset _ _ _ _)
    rw [hag.2]

theorem finishMessage_agree (T : HashT) (S : Scaffold) (hwf : WF T S) (s t : XMACC_Base)
    (hs : Valid T s) (ht : Valid T t) (h : Agree T s t) :
    Valid T (finishMessage T S s) ∧ Valid T (finishMessage T S t)
      ∧ finishMessage T S s = { finishMessage T S t with m_counter := s.m_counter } := by
  have hge := hwf.block_ge
  obtain ⟨v1, v2, hag⟩ := PadLastBlock_agree T S hwf s t hs ht h
    (T.BLOCKSIZE - 2 * T.WORDSIZE) 0x80 (Nat.sub_le _ _)
  have hc1 := PadLastBlock_m_counter T S s (T.BLOCKSIZE - 2 * T.WORDSIZE) 0x80
  unfold finishMessage
  dsimp only
  rw [lastWords T S hwf _ _ _ v1.data_length (hwf.S_wordBytes_length _)
      (hwf.S_wordBytes_length _),
    lastWords T S hwf _ _ _ v2.data_length (hwf.S_wordBytes_length _)
      (hwf.S_wordBytes_length _)]
  generalize PadLastBlock T S s (T.BLOCKSIZE - 2 * T.WORDSIZE) 0x80 = p at *
  generalize PadLastBlock T S t (T.BLOCKSIZE - 2 * T.WORDSIZE) 0x80 = q at *
  obtain ⟨k, buf, c, idx, d, dg, lo, hi⟩ := p
  obtain ⟨k2, buf2, c2, idx2, d2, dg2, lo2, hi2⟩ := q
  obtain ⟨hk, hi, hd, hlo, hhi, hdata⟩ := hag
  simp only at hk hi hd hlo hhi hdata hc1
  subst hk hi hd hlo hhi
  dsimp only
  rw [← hdata]
  generalize hD : S.CorrectEndianess (List.take (T.BLOCKSIZE - 2 * T.WORDSIZE) d) ++
      S.wordBytes (S.ByteReverse (S.GetBitCountHi lo hi)) ++
      S.wordBytes (S.ByteReverse (S.GetBitCountLo lo hi)) = D
  have hDl : D.length = T.BLOCKSIZE := by
    have := v1.data_length
    simp only at this
    rw [← hD]
    simp only [List.length_append, hwf.S_correct_length, hwf.S_wordBytes_length,
      List.length_take, this]
    omega
  have w1 : Valid T ⟨k, buf, c, idx, D, dg, lo, hi⟩ :=
    ⟨v1.key_length, v1.buffer_length, hDl, v1.digest_length⟩
  have w2 : Valid T ⟨k, buf2, c2, idx, D, dg, lo, hi⟩ :=
    ⟨v2.key_length, v2.buffer_length, hDl, v2.digest_length⟩
  refine ⟨vTransform_valid T S hwf _ w1 D, vTransform_valid T S hwf _ w2 D, ?_⟩
  rw [vTransform_eq T S hwf _ w1, vTransform_eq T S hwf _ w2, ← hc1]

/-! ## Closed forms of key setting, generation and verification -/

theorem XMACC_ok (T : HashT) (a : XMACC_Base) (key : List Nat) (c : Nat) :
    XMACC T a key c = .ok (Init T { a with
      m_counter := c, m_key := memcpy a.m_key 0 (key.take (KEYLENGTH T)) }) := by
  simp [XMACC, CheckedSetKey, ThrowIfInvalidKeyLength]

theorem keyed_fields (T : HashT) (a : XMACC_Base)
    (ha : Constructed T a) (key : List Nat) (hkey : key.length = KEYLENGTH T) (c : Nat) :
    Init T { a with m_counter := c, m_key := memcpy a.m_key 0 (key.take (KEYLENGTH T)) }
      = keyed T a key c := by
  have e1 : key.take (KEYLENGTH T) = key := List.take_of_length_le (Nat.le_of_eq hkey)
  have e2 : memcpy a.m_key 0 key = key :=
    memcpy_zero_full _ _ (by rw [ha.key_length, hkey])
  have e3 : memset a.m_digest 0 0 T.DIGESTSIZE = List.replicate T.DIGESTSIZE 0 := by
    unfold memset
    exact memcpy_zero_full _ _ (by rw [ha.digest_length, List.length_replicate])
  simp only [Init, keyed, e1, e2, e3]

theorem keyed_agree (T : HashT) (a b : XMACC_Base)
    (ha : Constructed T a) (hb : Constructed T b) (key : List Nat)
    (hkey : key.length = KEYLENGTH T) (c d : Nat) :
    Valid T (Init T { a with
        m_counter := c, m_key := memcpy a.m_key 0 (key.take (KEYLENGTH T)) })
      ∧ Valid T (Init T { b with
        m_counter := d, m_key := memcpy b.m_key 0 (key.take (KEYLENGTH T)) })
      ∧ Agree T
        (Init T { a with
          m_counter := c, m_key := memcpy a.m_key 0 (key.take (KEYLENGTH T)) })
        (Init T { b with
          m_counter := d, m_key := memcpy b.m_key 0 (key.take (KEYLENGTH T)) }) := by
  rw [keyed_fields T a ha key hkey, keyed_fields T b hb key hkey]
  refine ⟨⟨hkey, ha.buffer_length, ha.data_length, List.length_replicate _ _⟩,
    ⟨hkey, hb.buffer_length, hb.data_length, List.length_replicate _ _⟩, ?_⟩
  refine ⟨rfl, rfl, rfl, ?_, ?_, ?_⟩
  · exact ha.countLo_zero.trans hb.countLo_zero.symm
  · exact ha.countHi_zero.trans hb.countHi_zero.symm
  · show List.take (a.m_countLo % T.BLOCKSIZE) a.m_data
      = List.take (a.m_countLo % T.BLOCKSIZE) b.m_data
    rw [ha.countLo_zero]
    simp

theorem TruncatedFinal_eq (T : HashT) (S : Scaffold) (s : XMACC_Base) (size : Nat)
    (h4 : 4 ≤ size) (hsz : size ≤ DIGESTSIZE T) (hc : s.m_counter ≠ 0xffffffff) :
    TruncatedFinal T S s size = .ok
      (WriteWord32 ((s.m_counter + 1) % 2 ^ 32)
        ++ (finalDigest T (finishMessage T S s)
            (WriteWord32 ((s.m_counter + 1) % 2 ^ 32))).take (size - 4),
       Restart T { counterBlock T
           { finishMessage T S s with m_counter := (s.m_counter + 1) % 2 ^ 32 }
           (WriteWord32 ((s.m_counter + 1) % 2 ^ 32)) with
         m_digest := finalDigest T (finishMessage T S s)
           (WriteWord32 ((s.m_counter + 1) % 2 ^ 32)) }) := by
  have h0 : ¬ (size = 0 ∨ size > DigestSize T) := by
    unfold DigestSize
    omega
  have h1 : ¬ size < 4 := by omega
  unfold TruncatedFinal ThrowIfInvalidTruncatedSize
  simp only [h0, h1, hc, if_false, finishMessage_m_counter]
  rfl

theorem TruncatedFinal_error (T : HashT) (S : Scaffold) (s : XMACC_Base) (size : Nat)
    (h : size < 4 ∨ size > DIGESTSIZE T ∨ s.m_counter = 0xffffffff) :
    TruncatedFinal T S s size = .error .InvalidArgument := by
  unfold TruncatedFinal ThrowIfInvalidTruncatedSize DigestSize
  by_cases h0 : size = 0 ∨ size > DIGESTSIZE T
  · simp only [h0, if_true]
  · simp only [h0, if_false]
    by_cases h1 : size < 4
    · simp only [h1, if_true]
    · have h2 : s.m_counter = 0xffffffff := by omega
      simp only [h1, h2, if_false, if_true]

theorem TruncatedVerify_error (T : HashT) (S : Scaffold) (s : XMACC_Base) (mac : List Nat)
    (size : Nat) (h : ¬ (4 ≤ size ∧ size ≤ DIGESTSIZE T)) :
    TruncatedVerify T S s mac size = .error .AssertionFailed := by
  unfold TruncatedVerify
  simp only [h, not_false_eq_true, if_true]

theorem TruncatedVerify_eq (T : HashT) (S : Scaffold) (s : XMACC_Base) (mac : List Nat)
    (size : Nat) (h4 : 4 ≤ size) (hsz : size ≤ DIGESTSIZE T) :
    TruncatedVerify T S s mac size = .ok
      (decide ((mac.drop 4).take (size - 4)
          = (finalDigest T (finishMessage T S s) (mac.take 4)).take (size - 4)),
       Restart T { counterBlock T (finishMessage T S s) (mac.take 4) with
         m_digest := finalDigest T (finishMessage T S s) (mac.take 4) }) := by
  have h0 : 4 ≤ size ∧ size ≤ DIGESTSIZE T := ⟨h4, hsz⟩
  unfold TruncatedVerify
  simp only [h0, not_true_eq_false, if_false]
  rfl

theorem finalDigest_counter (T : HashT) (s : XMACC_Base) (c : Nat) (ctr : List Nat) :
    finalDigest T { s with m_counter := c } ctr = finalDigest T s ctr := rfl

theorem finalDigest_length (T : HashT) (S : Scaffold) (hwf : WF T S) (s : XMACC_Base)
    (hs : Valid T s) (ctr : List Nat) :
    (finalDigest T s ctr).length = T.DIGESTSIZE := by
  unfold finalDigest
  rw [inPlace_length _ _ _ hwf.T_correct_length]
  unfold counterBlock
  dsimp only
  rw [buffer_setup T S hwf _ _ _ hs.buffer_length hs.key_length]
  apply XorDigest_length T S hwf _ _ hs.digest_length
  rw [hwf.T_transform_length, keyedBuffer_length T S hwf _ _ hs.key_length]

theorem checksum_wf : WF checksumHash scaffold32 where
  digest_ge := by decide
  word_pos := by decide
  word_dvd_digest := by decide
  word_dvd_block := by decide
  block_ge := by decide
  block_ge_four := by decide
  block_dvd := by norm_num [checksumHash]
  T_correct_length := fun _ => rfl
  T_transform_length := fun _ _ => by simp [checksumHash]
  S_correct_length := fun _ => rfl
  S_wordBytes_length := fun _ => rfl

theorem rawObject_constructed (T : HashT) (fill : Nat) : Constructed T (rawObject T fill) :=
  ⟨List.length_replicate _ _, List.length_replicate _ _, List.length_replicate _ _,
    List.length_replicate _ _, rfl, rfl⟩

theorem finalDigest_agree (T : HashT) (S : Scaffold) (hwf : WF T S) (s t : XMACC_Base)
    (hs : Valid T s) (ht : Valid T t) (h : Agree T s t) (ctr : List Nat) :
    finalDigest T (finishMessage T S t) ctr = finalDigest T (finishMessage T S s) ctr := by
  obtain ⟨_, _, hf⟩ := finishMessage_agree T S hwf s t hs ht h
  rw [hf]
  rfl

theorem verify_generated (size : Nat) (w x : List Nat) (hw : w.length = 4) :
    decide (((w ++ x.take (size - 4)).drop 4).take (size - 4) = x.take (size - 4))
      = true := by
  have e : (w ++ x.take (size - 4)).drop 4 = x.take (size - 4) := by
    rw [← hw, List.drop_left]
  rw [e, List.take_take, Nat.min_self]
  simp

theorem generate_then_verify (T : HashT) (S : Scaffold) (hwf : WF T S) (s t : XMACC_Base)
    (hs : Valid T s) (ht : Valid T t) (h : Agree T s t) (size : Nat) (h4 : 4 ≤ size)
    (hsz : size ≤ DIGESTSIZE T) (hc : s.m_counter ≠ 0xffffffff) :
    ∃ mac sa sb, TruncatedFinal T S s size = .ok (mac, sa) ∧ mac.length = size
      ∧ TruncatedVerify T S t mac size = .ok (true, sb) := by
  obtain ⟨fa, _, _⟩ := finishMessage_agree T S hwf s t hs ht h
  have hfin := TruncatedFinal_eq T S s size h4 hsz hc
  have hver := TruncatedVerify_eq T S t
    (WriteWord32 ((s.m_counter + 1) % 2 ^ 32)
      ++ (finalDigest T (finishMessage T S s)
          (WriteWord32 ((s.m_counter + 1) % 2 ^ 32))).take (size - 4)) size h4 hsz
  have e1 : (WriteWord32 ((s.m_counter + 1) % 2 ^ 32)
      ++ (finalDigest T (finishMessage T S s)
          (WriteWord32 ((s.m_counter + 1) % 2 ^ 32))).take (size - 4)).take 4
      = WriteWord32 ((s.m_counter + 1) % 2 ^ 32) := by
    rw [← WriteWord32_length ((s.m_counter + 1) % 2 ^ 32), List.take_left]
  rw [e1, finalDigest_agree T S hwf s t hs ht h,
    verify_generated size _ _ (WriteWord32_length _)] at hver
  refine ⟨_, _, _, hfin, ?_, hver⟩
  rw [List.length_append, WriteWord32_length, List.length_take,
    finalDigest_length T S hwf _ fa]
  unfold DIGESTSIZE at hsz
  omega

/-! ## The object after a finalisation -/

theorem finishMessage_m_key (T : HashT) (S : Scaffold) (s : XMACC_Base) :
    (finishMessage T S s).m_key = s.m_key := by
  unfold finishMessage PadLastBlock
  dsimp only
  split <;> rfl

theorem counterBlock_valid (T : HashT) (S : Scaffold) (hwf : WF T S) (s : XMACC_Base)
    (hs : Valid T s) (ctr : List Nat) (hctr : ctr.length ≤ 4) :
    Valid T (counterBlock T s ctr) := by
  have hB := hwf.block_ge_four
  unfold counterBlock
  dsimp only
  rw [buffer_setup T S hwf _ _ _ hs.buffer_length hs.key_length]
  have hb : (T.Transform (keyedBuffer T s.m_key 0)
      (inPlace T.CorrectEndianess
        (memcpy (memset s.m_data 0 0 (T.BLOCKSIZE - 4)) (T.BLOCKSIZE - 4) ctr)
        T.BLOCKSIZE)).length = T.DIGESTSIZE := by
    rw [hwf.T_transform_length, keyedBuffer_length T S hwf _ _ hs.key_length]
  refine ⟨hs.key_length, hb, ?_, XorDigest_length T S hwf _ _ hs.digest_length hb⟩
  show (inPlace _ _ _).length = _
  obtain ⟨z, _⟩ := zero_fill s.m_data (T.BLOCKSIZE - 4) (by rw [hs.data_length]; omega)
  rw [inPlace_length _ _ _ hwf.T_correct_length,
    memcpy_length _ _ _ (by rw [z, hs.data_length]; omega), z, hs.data_length]

theorem restart_state (T : HashT) (S : Scaffold) (hwf : WF T S) (s : XMACC_Base)
    (hs : Valid T s) (ctr : List Nat) (hctr : ctr.length ≤ 4) (c : Nat) :
    Valid T (Restart T { counterBlock T { s with m_counter := c } ctr with
        m_digest := finalDigest T s ctr })
      ∧ (Restart T { counterBlock T { s with m_counter := c } ctr with
        m_digest := finalDigest T s ctr }).m_digest = List.replicate T.DIGESTSIZE 0 := by
  have hv := counterBlock_valid T S hwf { s with m_counter := c }
    ⟨hs.key_length, hs.buffer_length, hs.data_length, hs.digest_length⟩ ctr hctr
  have hl := finalDigest_length T S hwf s hs ctr
  have e : memset (finalDigest T s ctr) 0 0 T.DIGESTSIZE = List.replicate T.DIGESTSIZE 0 := by
    unfold memset
    exact memcpy_zero_full _ _ (by rw [hl, List.length_replicate])
  refine ⟨⟨hv.key_length, hv.buffer_length, hv.data_length, ?_⟩, e⟩
  show (memset (finalDigest T s ctr) 0 0 T.DIGESTSIZE).length = _
  rw [e, List.length_replicate]

theorem TruncatedFinal_agree (T : HashT) (S : Scaffold) (hwf : WF T S) (s t : XMACC_Base)
    (hs : Valid T s) (ht : Valid T t) (h : Agree T s t) (hc : s.m_counter = t.m_counter)
    (n : Nat) :
    (TruncatedFinal T S s n).map Prod.fst = (TruncatedFinal T S t n).map Prod.fst := by
  by_cases hb : n < 4 ∨ n > DIGESTSIZE T ∨ s.m_counter = 0xffffffff
  · rw [TruncatedFinal_error T S s n hb, TruncatedFinal_error T S t n (hc ▸ hb)]
  · rw [TruncatedFinal_eq T S s n (by omega) (by omega) (by omega),
      TruncatedFinal_eq T S t n (by omega) (by omega) (by omega),
      finalDigest_agree T S hwf s t hs ht h, hc]
    rfl

theorem TruncatedVerify_agree (T : HashT) (S : Scaffold) (hwf : WF T S) (s t : XMACC_Base)
    (hs : Valid T s) (ht : Valid T t) (h : Agree T s t) (mac : List Nat) (n : Nat) :
    (TruncatedVerify T S s mac n).map Prod.fst
      = (TruncatedVerify T S t mac n).map Prod.fst := by
  by_cases hb : 4 ≤ n ∧ n ≤ DIGESTSIZE T
  · rw [TruncatedVerify_eq T S s mac n hb.1 hb.2, TruncatedVerify_eq T S t mac n hb.1 hb.2,
      finalDigest_agree T S hwf s t hs ht h]
    rfl
  · rw [TruncatedVerify_error T S s mac n hb, TruncatedVerify_error T S t mac n hb]

theorem ready_after (T : HashT) (S : Scaffold) (hwf : WF T S) (s1 : XMACC_Base)
    (key : List Nat) (h1 : Valid T s1) (hk : s1.m_key = key)
    (hi : s1.m_index = 0x80000000) (hd : s1.m_digest = List.replicate T.DIGESTSIZE 0)
    (hlo : s1.m_countLo = 0) (hhi : s1.m_countHi = 0) (o : XMACC_Base)
    (ho : Constructed T o) :
    ∃ k, XMACC T o key s1.m_counter = .ok k ∧
      ∀ (msg : List Nat) (n : Nat) (mac : List Nat),
        (TruncatedFinal T S (Update T S s1 msg) n).map Prod.fst
            = (TruncatedFinal T S (Update T S k msg) n).map Prod.fst
          ∧ (TruncatedVerify T S (Update T S s1 msg) mac n).map Prod.fst
            = (TruncatedVerify T S (Update T S k msg) mac n).map Prod.fst := by
  have hkey : key.length = KEYLENGTH T := by rw [← hk]; exact h1.key_length
  refine ⟨_, XMACC_ok T o key s1.m_counter, ?_⟩
  rw [keyed_fields T o ho key hkey]
  have hv : Valid T (keyed T o key s1.m_counter) :=
    ⟨hkey, ho.buffer_length, ho.data_length, List.length_replicate _ _⟩
  have hag : Agree T s1 (keyed T o key s1.m_counter) := by
    refine ⟨hk, hi, hd, hlo.trans ho.countLo_zero.symm, hhi.trans ho.countHi_zero.symm, ?_⟩
    rw [hlo]
    simp
  intro msg n mac
  obtain ⟨u1, u2, hu⟩ := Update_agree T S hwf msg _ _ h1 hv hag
  have hc : (Update T S s1 msg).m_counter
      = (Update T S (keyed T o key s1.m_counter) msg).m_counter := by
    rw [Update_m_counter, Update_m_counter]
    rfl
  exact ⟨TruncatedFinal_agree T S hwf _ _ u1 u2 hu hc n,
    TruncatedVerify_agree T S hwf _ _ u1 u2 hu mac n⟩

/-! ## A tag with one byte changed -/

theorem TruncatedFinal_inv (T : HashT) (S : Scaffold) (s s1 : XMACC_Base) (size : Nat)
    (mac : List Nat) (h : TruncatedFinal T S s size = .ok (mac, s1)) :
    4 ≤ size ∧ size ≤ DIGESTSIZE T
      ∧ mac = WriteWord32 ((s.m_counter + 1) % 2 ^ 32)
        ++ (finalDigest T (finishMessage T S s)
            (WriteWord32 ((s.m_counter + 1) % 2 ^ 32))).take (size - 4) := by
  by_cases hb : size < 4 ∨ size > DIGESTSIZE T ∨ s.m_counter = 0xffffffff
  · rw [TruncatedFinal_error T S s size hb] at h
    cases h
  · rw [TruncatedFinal_eq T S s size (by omega) (by omega) (by omega)] at h
    injection h with h
    injection h with hm _
    exact ⟨by omega, by omega, hm.symm⟩

theorem take_four_append (w x : List Nat) (hw : w.length = 4) : (w ++ x).take 4 = w := by
  rw [← hw, List.take_left]

theorem drop_four_append (w x : List Nat) (hw : w.length = 4) : (w ++ x).drop 4 = x := by
  rw [← hw, List.drop_left]

theorem set_ne_self (l : List Nat) (j v : Nat) (hj : j < l.length) (hv : v ≠ l.getD j 0) :
    l.set j v ≠ l := by
  intro h
  have h1 : (l.set j v).getD j 0 = l.getD j 0 := by rw [h]
  rw [List.getD_eq_getElem?_getD, List.getElem?_set_self hj, Option.getD_some] at h1
  exact hv h1

theorem computeMAC_inv (T : HashT) (S : Scaffold) (hwf : WF T S) (a : XMACC_Base)
    (ha : Constructed T a) (key : List Nat) (hkey : key.length = KEYLENGTH T)
    (msg : List Nat) (c size : Nat) (tag : List Nat)
    (h : computeMAC T S a key c msg size = .ok tag) :
    4 ≤ size ∧ size ≤ DIGESTSIZE T ∧ tag.length = size
      ∧ ∃ w : List Nat, w.length = 4 ∧ tag
        = w ++ (finalDigest T (finishMessage T S (Update T S (keyed T a key c) msg)) w).take
            (size - 4) := by
  unfold computeMAC at h
  rw [XMACC_ok, keyed_fields T a ha key hkey] at h
  dsimp only at h
  cases hf : TruncatedFinal T S (Update T S (keyed T a key c) msg) size with
  | error e => rw [hf] at h; cases h
  | ok p =>
    obtain ⟨mac, s1⟩ := p
    rw [hf] at h
    have hm : mac = tag := by
      injection h
    subst hm
    obtain ⟨h4, hsz, hmac⟩ := TruncatedFinal_inv T S _ s1 size mac hf
    have hv : Valid T (keyed T a key c) :=
      ⟨hkey, ha.buffer_length, ha.data_length, List.length_replicate _ _⟩
    obtain ⟨u1, _, hu⟩ := Update_agree T S hwf msg _ _ hv hv ⟨rfl, rfl, rfl, rfl, rfl, rfl⟩
    obtain ⟨fa, _, _⟩ := finishMessage_agree T S hwf _ _ u1 u1 hu
    refine ⟨h4, hsz, ?_, _, WriteWord32_length _, hmac⟩
    rw [hmac, List.length_append, WriteWord32_length, List.length_take,
      finalDigest_length T S hwf _ fa]
    unfold DIGESTSIZE at hsz
    omega

theorem verifyMAC_eq (T : HashT) (S : Scaffold) (b : XMACC_Base)
    (hb : Constructed T b) (key : List Nat) (hkey : key.length = KEYLENGTH T)
    (msg : List Nat) (size : Nat) (mac : List Nat) (h4 : 4 ≤ size)
    (hsz : size ≤ DIGESTSIZE T) :
    verifyMAC T S b key msg mac size = .ok (decide ((mac.drop 4).take (size - 4)
      = (recomputedDigest T S b key msg (mac.take 4)).take (size - 4))) := by
  unfold verifyMAC recomputedDigest
  rw [XMACC_ok, keyed_fields T b hb key hkey]
  dsimp only
  rw [TruncatedVerify_eq T S _ mac size h4 hsz]
  rfl

theorem recomputedDigest_eq (T : HashT) (S : Scaffold) (hwf : WF T S) (a b : XMACC_Base)
    (ha : Constructed T a) (hb : Constructed T b) (key : List Nat)
    (hkey : key.length = KEYLENGTH T) (msg : List Nat) (c : Nat) (ctr : List Nat) :
    recomputedDigest T S b key msg ctr
      = finalDigest T (finishMessage T S (Update T S (keyed T a key c) msg)) ctr := by
  have hva : Valid T (keyed T a key c) :=
    ⟨hkey, ha.buffer_length, ha.data_length, List.length_replicate _ _⟩
  have hvb : Valid T (keyed T b key 0xffffffff) :=
    ⟨hkey, hb.buffer_length, hb.data_length, List.length_replicate _ _⟩
  have hag : Agree T (keyed T a key c) (keyed T b key 0xffffffff) := by
    refine ⟨rfl, rfl, rfl, ha.countLo_zero.trans hb.countLo_zero.symm,
      ha.countHi_zero.trans hb.countHi_zero.symm, ?_⟩
    show List.take (a.m_countLo % T.BLOCKSIZE) a.m_data
      = List.take (a.m_countLo % T.BLOCKSIZE) b.m_data
    rw [ha.countLo_zero]
    simp
  obtain ⟨ua, ub, hu⟩ := Update_agree T S hwf msg _ _ hva hvb hag
  exact finalDigest_agree T S hwf _ _ ua ub hu ctr

/-! ## The counter along a sequence of calls -/

theorem GetWord_WriteWord32 (v : Nat) : GetWord (WriteWord32 v) = v % 2 ^ 32 := by
  simp only [GetWord, WriteWord32, List.getD_cons_zero, List.getD_cons_succ,
    Nat.shiftRight_eq_div_pow]
  omega

theorem WriteWord32_injective (v w : Nat) (hv : v < 2 ^ 32) (hw : w < 2 ^ 32)
    (h : WriteWord32 v = WriteWord32 w) : v = w := by
  have := congrArg GetWord h
  rwa [GetWord_WriteWord32, GetWord_WriteWord32, Nat.mod_eq_of_lt hv,
    Nat.mod_eq_of_lt hw] at this

theorem TruncatedFinal_ok (T : HashT) (S : Scaffold) (s s1 : XMACC_Base) (size : Nat)
    (mac : List Nat) (h : TruncatedFinal T S s size = .ok (mac, s1)) :
    s.m_counter ≠ 0xffffffff ∧ s1.m_counter = (s.m_counter + 1) % 2 ^ 32
      ∧ mac.take 4 = WriteWord32 ((s.m_counter + 1) % 2 ^ 32) := by
  by_cases hb : size < 4 ∨ size > DIGESTSIZE T ∨ s.m_counter = 0xffffffff
  · exfalso
    rw [TruncatedFinal_error T S s size hb] at h
    cases h
  · have hc : s.m_counter ≠ 0xffffffff := by omega
    rw [TruncatedFinal_eq T S s size (by omega) (by omega) hc] at h
    injection h with h
    injection h with hm hs
    subst hm hs
    refine ⟨hc, rfl, ?_⟩
    rw [← WriteWord32_length ((s.m_counter + 1) % 2 ^ 32), List.take_left]

theorem TruncatedVerify_ok (T : HashT) (S : Scaffold) (s s1 : XMACC_Base) (size : Nat)
    (mac : List Nat) (r : Bool) (h : TruncatedVerify T S s mac size = .ok (r, s1)) :
    s1.m_counter = s.m_counter := by
  by_cases hb : 4 ≤ size ∧ size ≤ DIGESTSIZE T
  · rw [TruncatedVerify_eq T S s mac size hb.1 hb.2] at h
    injection h with h
    injection h with hm hs
    subst hs
    exact finishMessage_m_counter T S s
  · rw [TruncatedVerify_error T S s mac size hb] at h
    cases h

theorem run_counter (T : HashT) (S : Scaffold) (calls : List Call) :
    ∀ (s s1 : XMACC_Base) (macs : List (List Nat)), s.m_counter < 2 ^ 32 →
      run T S s calls = .ok (macs, s1) →
      s1.m_counter = s.m_counter + macs.length ∧ s1.m_counter < 2 ^ 32
        ∧ ∀ k (hk : k < macs.length), macs[k].take 4 = WriteWord32 (s.m_counter + (k + 1)) := by
  induction calls with
  | nil =>
    intro s s1 macs hs h
    simp only [run] at h
    injection h with h
    injection h with hm hs1
    subst hm hs1
    exact ⟨rfl, hs, fun k hk => absurd hk (Nat.not_lt_zero _)⟩
  | cons call rest ih =>
    intro s s1 macs hs h
    cases call with
    | Update input =>
      simp only [run] at h
      have := ih (Update T S s input) s1 macs (by rw [Update_m_counter]; exact hs) h
      rwa [Update_m_counter] at this
    | TruncatedFinal size =>
      simp only [run] at h
      cases hf : TruncatedFinal T S s size with
      | error e => rw [hf] at h; cases h
      | ok p =>
        obtain ⟨mac, s2⟩ := p
        rw [hf] at h
        dsimp only at h
        obtain ⟨hc, hc2, hm⟩ := TruncatedFinal_ok T S s s2 size mac hf
        have hlt : s.m_counter + 1 < 2 ^ 32 := by omega
        rw [Nat.mod_eq_of_lt hlt] at hc2 hm
        cases hr : run T S s2 rest with
        | error e => rw [hr] at h; cases h
        | ok q =>
          obtain ⟨macs2, s3⟩ := q
          rw [hr] at h
          dsimp only at h
          injection h with h
          injection h with hm1 hs3
          subst hm1 hs3
          obtain ⟨i1, i2, i3⟩ := ih s2 s3 macs2 (by rw [hc2]; exact hlt) hr
          refine ⟨?_, i2, ?_⟩
          · rw [i1, hc2, List.length_cons]; omega
          · intro k hk
            cases k with
            | zero => exact hm
            | succ j =>
              have := i3 j (by simpa using hk)
              rw [hc2] at this
              simp only [List.getElem_cons_succ]
              rw [this]
              congr 1
              omega
    | TruncatedVerify mac size =>
      simp only [run] at h
      cases hf : TruncatedVerify T S s mac size with
      | error e => rw [hf] at h; cases h
      | ok p =>
        obtain ⟨r, s2⟩ := p
        rw [hf] at h
        dsimp only at h
        have hc := TruncatedVerify_ok T S s s2 size mac r hf
        have := ih s2 s1 macs (by rw [hc]; exact hs) h
        rwa [hc] at this

end XMACC_Base

/-! ## The Panama MAC absorbs its key as a message -/

namespace PanamaHash

theorem hash_Update_append {E : Type} (P : Panama E) (h : PanamaHash E) (a b : List Nat) :
    Update P h (a ++ b) = Update P (Update P h a) b := by
  simp only [Update, List.foldl_append]

theorem hash_UpdateByte_agree {E : Type} (P : Panama E) (h g : PanamaHash E) (hag : Agree h g)
    (b : Nat) : Agree (UpdateByte P h b) (UpdateByte P g b) := by
  obtain ⟨e, d, dg, lo, hi⟩ := h
  obtain ⟨e2, d2, dg2, lo2, hi2⟩ := g
  obtain ⟨he, hlo, hhi, hl, hr, hdata⟩ := hag
  simp only at he hlo hhi hl hr hdata
  subst he hlo hhi
  have hnum : lo % BLOCKSIZE < BLOCKSIZE := Nat.mod_lt _ (by decide)
  have l1 : (memcpy d (lo % BLOCKSIZE) [b]).length = BLOCKSIZE := by
    rw [memcpy_length _ _ _ (by rw [hl]; simpa using hnum), hl]
  have l2 : (memcpy d2 (lo % BLOCKSIZE) [b]).length = BLOCKSIZE := by
    rw [memcpy_length _ _ _ (by rw [hr]; simpa using hnum), hr]
  have tk : (memcpy d (lo % BLOCKSIZE) [b]).take (lo % BLOCKSIZE + 1)
      = (memcpy d2 (lo % BLOCKSIZE) [b]).take (lo % BLOCKSIZE + 1) := by
    have e1 := take_memcpy_end d [b] (lo % BLOCKSIZE) (by rw [hl]; omega)
    have e2 := take_memcpy_end d2 [b] (lo % BLOCKSIZE) (by rw [hr]; omega)
    simp only [List.length_singleton] at e1 e2
    rw [e1, e2, hdata]
  unfold UpdateByte
  dsimp only
  by_cases hfull : lo % BLOCKSIZE + 1 = BLOCKSIZE
  · simp only [hfull, if_true]
    have hd1 : memcpy d (lo % BLOCKSIZE) [b] = memcpy d2 (lo % BLOCKSIZE) [b] := by
      rw [hfull] at tk
      rwa [List.take_of_length_le (Nat.le_of_eq l1),
        List.take_of_length_le (Nat.le_of_eq l2)] at tk
    unfold HashBlock HashEndianCorrectedBlock
    dsimp only
    rw [hd1]
    exact ⟨rfl, rfl, rfl, l2, l2, rfl⟩
  · simp only [hfull, if_false]
    have hmod : (lo + 1) % 2 ^ 32 % BLOCKSIZE = lo % BLOCKSIZE + 1 := by
      unfold BLOCKSIZE at hfull hnum ⊢
      omega
    refine ⟨rfl, rfl, rfl, l1, l2, ?_⟩
    simp only [hmod]
    exact tk

theorem hash_Update_agree {E : Type} (P : Panama E) (input : List Nat) :
    ∀ h g : PanamaHash E, Agree h g → Agree (Update P h input) (Update P g input) := by
  induction input with
  | nil => intro h g hag; exact hag
  | cons b rest ih =>
    intro h g hag
    exact ih _ _ (hash_UpdateByte_agree P h g hag b)

theorem hash_TruncatedFinal_agree {E : Type} (P : Panama E)
    (pad : List Nat → Nat → Nat → List Nat) (h g : PanamaHash E) (hag : Agree h g)
    (size : Nat) : TruncatedFinal P pad h size = TruncatedFinal P pad g size := by
  unfold TruncatedFinal
  rw [← hag.engine, ← hag.countLo, ← hag.countHi, ← hag.data]

end PanamaHash

/-! ## The claims -/

open XMACC_Base

/-- C1. XMACC round trip: whatever the underlying hash, the key, the message, the
counter other than 0xffffffff and the size between 4 and `DIGESTSIZE`, the MAC that
`TruncatedFinal(mac, size)` writes on a keyed object that absorbed the message has
`size` bytes and is accepted by `TruncatedVerify(mac, size)` on any object keyed with
the same key that absorbed the same message. -/
theorem XMACC_round_trip (T : HashT) (S : Scaffold) (hwf : WF T S) (a b : XMACC_Base)
    (ha : Constructed T a) (hb : Constructed T b) (key : List Nat)
    (hkey : key.length = KEYLENGTH T) (msg : List Nat) (c d : Nat) (hc : c ≠ 0xffffffff)
    (size : Nat) (h4 : 4 ≤ size) (hsz : size ≤ DIGESTSIZE T) :
    ∃ ka kb mac sa sb,
      XMACC T a key c = .ok ka ∧ XMACC T b key d = .ok kb
        ∧ TruncatedFinal T S (Update T S ka msg) size = .ok (mac, sa)
        ∧ mac.length = size
        ∧ TruncatedVerify T S (Update T S kb msg) mac size = .ok (true, sb) := by
  obtain ⟨va, vb, hag⟩ := keyed_agree T a b ha hb key hkey c d
  obtain ⟨ua, ub, hu⟩ := Update_agree T S hwf msg _ _ va vb hag
  have hca : (Update T S (Init T { a with
      m_counter := c, m_key := memcpy a.m_key 0 (key.take (KEYLENGTH T)) }) msg).m_counter
      = c := by rw [Update_m_counter]; rfl
  obtain ⟨mac, sa, sb, h1, h2, h3⟩ :=
    generate_then_verify T S hwf _ _ ua ub hu size h4 hsz (hca.symm ▸ hc)
  exact ⟨_, _, mac, sa, sb, XMACC_ok T a key c, XMACC_ok T b key d, h1, h2, h3⟩

/-- C1, at the checksum instance: two objects with different scratch contents and
different counters, the key 1..12, the message "abc" and a 16-byte MAC. -/
theorem XMACC_round_trip_witness :
    ∃ ka kb mac sa sb,
      XMACC checksumHash (rawObject checksumHash 7) [1, 2, 3, 4, 5, 6, 7, 8, 9, 10, 11, 12] 0
          = .ok ka
        ∧ XMACC checksumHash (rawObject checksumHash 9)
            [1, 2, 3, 4, 5, 6, 7, 8, 9, 10, 11, 12] 5 = .ok kb
        ∧ TruncatedFinal checksumHash scaffold32
            (Update checksumHash scaffold32 ka [97, 98, 99]) 16 = .ok (mac, sa)
        ∧ mac.length = 16
        ∧ TruncatedVerify checksumHash scaffold32
            (Update checksumHash scaffold32 kb [97, 98, 99]) mac 16 = .ok (true, sb) :=
  XMACC_round_trip checksumHash scaffold32 checksum_wf (rawObject checksumHash 7)
    (rawObject checksumHash 9) (rawObject_constructed _ _) (rawObject_constructed _ _)
    [1, 2, 3, 4, 5, 6, 7, 8, 9, 10, 11, 12] rfl [97, 98, 99] 0 5 (by decide) 16
    (by decide) (by decide)

/-- C2, as stated, fails: with the checksum in the place of `T`, the 16-byte tag of the
message "abc" under the key 1..12 and the counter 0 is still accepted when its byte 3,
the lowest counter byte, is changed from 1 to 2. -/
theorem tag_tampering_counterexample :
    computeMAC checksumHash scaffold32 (rawObject checksumHash 0)
        [1, 2, 3, 4, 5, 6, 7, 8, 9, 10, 11, 12] 0 [97, 98, 99] 16
        = .ok [0, 0, 0, 1, 99, 102, 101, 128, 0, 0, 0, 0, 0, 0, 0, 0]
      ∧ verifyMAC checksumHash scaffold32 (rawObject checksumHash 0)
        [1, 2, 3, 4, 5, 6, 7, 8, 9, 10, 11, 12] [97, 98, 99]
        [0, 0, 0, 2, 99, 102, 101, 128, 0, 0, 0, 0, 0, 0, 0, 0] 16 = .ok true := by
  constructor <;> rfl

/-- C2, amended. When one byte of the 16-byte MAC that `TruncatedFinal` produced is
changed, `TruncatedVerify(tag', 16)` under the same key and message returns false if
the byte is one of the digest bytes 4..15; if it is one of the counter bytes 0..3,
`TruncatedVerify` returns false exactly when the first 12 bytes of the digest recomputed
for the changed counter differ from those for the original counter, which depends on
`T`. -/
theorem tag_tampering (T : HashT) (S : Scaffold) (hwf : WF T S) (a b : XMACC_Base)
    (ha : Constructed T a) (hb : Constructed T b) (key : List Nat)
    (hkey : key.length = KEYLENGTH T) (msg : List Nat) (c : Nat) (tag : List Nat)
    (hmac : computeMAC T S a key c msg 16 = .ok tag) (i : Nat) (hi : i < 16) (v : Nat)
    (hv : v ≠ tag.getD i 0) :
    (4 ≤ i → verifyMAC T S b key msg (tag.set i v) 16 = .ok false)
      ∧ (i < 4 → verifyMAC T S b key msg (tag.set i v) 16 = .ok
          (decide ((recomputedDigest T S b key msg ((tag.set i v).take 4)).take 12
            = (recomputedDigest T S b key msg (tag.take 4)).take 12))) := by
  obtain ⟨h4, hsz, hlen, w, hw, htag⟩ :=
    computeMAC_inv T S hwf a ha key hkey msg c 16 tag hmac
  have hrd := recomputedDigest_eq T S hwf a b ha hb key hkey msg c
  have htake : tag.take 4 = w := by
    rw [htag]
    exact take_four_append _ _ hw
  have hdrop : tag.drop 4 = (recomputedDigest T S b key msg (tag.take 4)).take 12 := by
    rw [htake, hrd w]
    conv_lhs => rw [htag]
    exact drop_four_append _ _ hw
  have hdl : (tag.drop 4).length = 12 := by
    rw [List.length_drop, hlen]
  rw [verifyMAC_eq T S b hb key hkey msg 16 _ h4 hsz]
  constructor
  · intro h
    have e1 : (tag.set i v).take 4 = tag.take 4 := by
      rw [List.set_take, List.set_eq_of_length_le]
      rw [List.length_take]
      omega
    have e2 : (tag.set i v).drop 4 = (tag.drop 4).set (i - 4) v := by
      rw [List.drop_set, if_neg (by omega)]
    have e3 : ((tag.drop 4).set (i - 4) v).take (16 - 4) = (tag.drop 4).set (i - 4) v :=
      List.take_of_length_le (by rw [List.length_set, hdl])
    have hne : (tag.drop 4).set (i - 4) v ≠ tag.drop 4 := by
      apply set_ne_self _ _ _ (by rw [hdl]; omega)
      rw [List.getD_eq_getElem?_getD, List.getElem?_drop,
        show 4 + (i - 4) = i by omega, ← List.getD_eq_getElem?_getD]
      exact hv
    rw [e1, e2, e3, ← hdrop]
    simp only [hne, decide_False]
  · intro h
    have e2 : (tag.set i v).drop 4 = tag.drop 4 := List.drop_set_of_lt _ _ h
    have e3 : (tag.drop 4).take (16 - 4) = tag.drop 4 :=
      List.take_of_length_le (by rw [hdl])
    rw [e2, e3, hdrop]
    congr 1
    exact decide_eq_decide.mpr eq_comm

/-- C2 amended, at the checksum instance: byte 5 of the tag of "abc" is changed to 7. -/
theorem tag_tampering_witness :
    (4 ≤ 5 → verifyMAC checksumHash scaffold32 (rawObject checksumHash 9)
        [1, 2, 3, 4, 5, 6, 7, 8, 9, 10, 11, 12] [97, 98, 99]
        ([0, 0, 0, 1, 99, 102, 101, 128, 0, 0, 0, 0, 0, 0, 0, 0].set 5 7) 16 = .ok false)
      ∧ (5 < 4 → verifyMAC checksumHash scaffold32 (rawObject checksumHash 9)
        [1, 2, 3, 4, 5, 6, 7, 8, 9, 10, 11, 12] [97, 98, 99]
        ([0, 0, 0, 1, 99, 102, 101, 128, 0, 0, 0, 0, 0, 0, 0, 0].set 5 7) 16 = .ok
          (decide ((recomputedDigest checksumHash scaffold32 (rawObject checksumHash 9)
              [1, 2, 3, 4, 5, 6, 7, 8, 9, 10, 11, 12] [97, 98, 99]
              (([0, 0, 0, 1, 99, 102, 101, 128, 0, 0, 0, 0, 0, 0, 0, 0].set 5 7).take 4)).take
                12
            = (recomputedDigest checksumHash scaffold32 (rawObject checksumHash 9)
              [1, 2, 3, 4, 5, 6, 7, 8, 9, 10, 11, 12] [97, 98, 99]
              ([0, 0, 0, 1, 99, 102, 101, 128, 0, 0, 0, 0, 0, 0, 0, 0].take 4)).take 12))) :=
  tag_tampering checksumHash scaffold32 checksum_wf (rawObject checksumHash 0)
    (rawObject checksumHash 9) (rawObject_constructed _ _) (rawObject_constructed _ _)
    [1, 2, 3, 4, 5, 6, 7, 8, 9, 10, 11, 12] rfl [97, 98, 99] 0
    [0, 0, 0, 1, 99, 102, 101, 128, 0, 0, 0, 0, 0, 0, 0, 0] (by rfl) 5 (by decide) 7
    (by decide)

/-- C3. PanamaMAC is the Panama hash of key followed by message: keying restarts the
object, which resets the engine, and then absorbs the key through `Update`, the path
of message bytes; so after the message the MAC object keyed with k and the hash object
that absorbed k followed by m hold the same engine state, whatever `Reset` and
`Iterate` do (the same operations in the same order), the same byte count and the same
buffered bytes, and every tag of the one is the tag of the other. -/
theorem PanamaMAC_is_hash_of_key_and_message {E : Type} (P : Panama E)
    (pad : List Nat → Nat → Nat → List Nat) (h : PanamaHash E) (m : PanamaMAC_Base E)
    (he : m.engine = h.engine) (hm : m.m_data.length = PanamaHash.BLOCKSIZE)
    (hh : h.m_data.length = PanamaHash.BLOCKSIZE) (k msg : List Nat) :
    (PanamaMAC_Base.UncheckedSetKey P m k k.length).toPanamaHash
        = PanamaHash.Update P (PanamaHash.Restart P m.toPanamaHash) k
      ∧ (PanamaMAC_Base.Update P (PanamaMAC_Base.UncheckedSetKey P m k k.length) msg).engine
        = (PanamaHash.Update P (PanamaHash.Restart P h) (k ++ msg)).engine
      ∧ (PanamaMAC_Base.Update P
          (PanamaMAC_Base.UncheckedSetKey P m k k.length) msg).m_countLo
        = (PanamaHash.Update P (PanamaHash.Restart P h) (k ++ msg)).m_countLo
      ∧ (PanamaMAC_Base.Update P
          (PanamaMAC_Base.UncheckedSetKey P m k k.length) msg).m_countHi
        = (PanamaHash.Update P (PanamaHash.Restart P h) (k ++ msg)).m_countHi
      ∧ (PanamaMAC_Base.Update P
            (PanamaMAC_Base.UncheckedSetKey P m k k.length) msg).m_data.take
          ((PanamaHash.Update P (PanamaHash.Restart P h) (k ++ msg)).m_countLo
            % PanamaHash.BLOCKSIZE)
        = (PanamaHash.Update P (PanamaHash.Restart P h) (k ++ msg)).m_data.take
          ((PanamaHash.Update P (PanamaHash.Restart P h) (k ++ msg)).m_countLo
            % PanamaHash.BLOCKSIZE)
      ∧ ∀ size, PanamaMAC_Base.TruncatedFinal P pad
            (PanamaMAC_Base.Update P (PanamaMAC_Base.UncheckedSetKey P m k k.length) msg) size
          = PanamaHash.TruncatedFinal P pad
            (PanamaHash.Update P (PanamaHash.Restart P h) (k ++ msg)) size := by
  have hkey : (PanamaMAC_Base.UncheckedSetKey P m k k.length).toPanamaHash
      = PanamaHash.Update P (PanamaHash.Restart P m.toPanamaHash) k := by
    simp only [PanamaMAC_Base.UncheckedSetKey, PanamaMAC_Base.Restart, PanamaMAC_Base.Init,
      PanamaMAC_Base.Update, List.take_length]
    rfl
  have hall : (PanamaMAC_Base.Update P
      (PanamaMAC_Base.UncheckedSetKey P m k k.length) msg).toPanamaHash
      = PanamaHash.Update P (PanamaHash.Restart P m.toPanamaHash) (k ++ msg) := by
    rw [PanamaHash.hash_Update_append, ← hkey]
    rfl
  have h0 : PanamaHash.Agree (PanamaHash.Restart P m.toPanamaHash)
      (PanamaHash.Restart P h) :=
    ⟨congrArg P.Reset he, rfl, rfl, hm, hh, rfl⟩
  have hag := PanamaHash.hash_Update_agree P (k ++ msg) _ _ h0
  rw [← hall] at hag
  refine ⟨hkey, hag.engine, hag.countLo, hag.countHi, ?_, fun size => ?_⟩
  · rw [← hag.countLo]
    exact hag.data
  · exact PanamaHash.hash_TruncatedFinal_agree P pad _ _ hag size

/-- C3, at the recording engine: a 33-byte key and a 2-byte message, on objects whose
buffers hold different bytes. -/
theorem PanamaMAC_is_hash_of_key_and_message_witness :
    (PanamaMAC_Base.Update recordingEngine
        (PanamaMAC_Base.UncheckedSetKey recordingEngine
          ⟨⟨[[9]], List.replicate 32 7, [], 5, 0⟩, [4, 4]⟩ (List.replicate 32 1 ++ [2]) 33)
        [97, 98]).engine
      = (PanamaHash.Update recordingEngine
          (PanamaHash.Restart recordingEngine ⟨[[9]], List.replicate 32 8, [], 0, 0⟩)
          ((List.replicate 32 1 ++ [2]) ++ [97, 98])).engine
      ∧ (PanamaHash.Update recordingEngine
          (PanamaHash.Restart recordingEngine ⟨[[9]], List.replicate 32 8, [], 0, 0⟩)
          ((List.replicate 32 1 ++ [2]) ++ [97, 98])).engine = [List.replicate 32 1] :=
  ⟨(PanamaMAC_is_hash_of_key_and_message recordingEngine (fun d _ _ => d)
      ⟨[[9]], List.replicate 32 8, [], 0, 0⟩
      ⟨⟨[[9]], List.replicate 32 7, [], 5, 0⟩, [4, 4]⟩ rfl rfl rfl
      (List.replicate 32 1 ++ [2]) [97, 98]).2.1, by rfl⟩

/-- C4. Truncation consistency for XMACC: from any object with buffers of the declared
sizes and a counter other than 0xffffffff, and for every N between 4 and `DIGESTSIZE`,
`TruncatedFinal(mac, N)` writes N bytes, and they are the first N bytes that
`TruncatedFinal(mac, DIGESTSIZE)` writes from the same state. -/
theorem truncation_consistent (T : HashT) (S : Scaffold) (hwf : WF T S) (s : XMACC_Base)
    (hs : Valid T s) (hc : s.m_counter ≠ 0xffffffff) (N : Nat) (h4 : 4 ≤ N)
    (hN : N ≤ DIGESTSIZE T) :
    ∃ macN macF sN sF,
      TruncatedFinal T S s N = .ok (macN, sN)
        ∧ TruncatedFinal T S s (DIGESTSIZE T) = .ok (macF, sF)
        ∧ macN.length = N ∧ macF.length = DIGESTSIZE T ∧ macN = macF.take N := by
  have hD : 4 ≤ DIGESTSIZE T := by unfold DIGESTSIZE; omega
  obtain ⟨fa, _, _⟩ := finishMessage_agree T S hwf s s hs hs
    ⟨rfl, rfl, rfl, rfl, rfl, rfl⟩
  have hl := finalDigest_length T S hwf _ fa (WriteWord32 ((s.m_counter + 1) % 2 ^ 32))
  refine ⟨_, _, _, _, TruncatedFinal_eq T S s N h4 hN hc,
    TruncatedFinal_eq T S s (DIGESTSIZE T) hD (Nat.le_refl _) hc, ?_, ?_, ?_⟩
  · rw [List.length_append, WriteWord32_length, List.length_take, hl]
    unfold DIGESTSIZE at hN
    omega
  · rw [List.length_append, WriteWord32_length, List.length_take, hl]
    unfold DIGESTSIZE
    omega
  · have e1 : List.take N (WriteWord32 ((s.m_counter + 1) % 2 ^ 32))
        = WriteWord32 ((s.m_counter + 1) % 2 ^ 32) :=
      List.take_of_length_le (by rw [WriteWord32_length]; exact h4)
    rw [List.take_append_eq_append_take, WriteWord32_length, List.take_take, e1,
      Nat.min_eq_left (Nat.sub_le_sub_right hN 4)]

/-- C4, at the checksum instance: a 7-byte MAC against the full 20-byte MAC. -/
theorem truncation_consistent_witness :
    ∃ macN macF sN sF,
      TruncatedFinal checksumHash scaffold32 (rawObject checksumHash 3) 7 = .ok (macN, sN)
        ∧ TruncatedFinal checksumHash scaffold32 (rawObject checksumHash 3)
            (DIGESTSIZE checksumHash) = .ok (macF, sF)
        ∧ macN.length = 7 ∧ macF.length = DIGESTSIZE checksumHash
        ∧ macN = macF.take 7 :=
  truncation_consistent checksumHash scaffold32 checksum_wf (rawObject checksumHash 3)
    ⟨List.length_replicate _ _, List.length_replicate _ _, List.length_replicate _ _,
      List.length_replicate _ _⟩ (by decide) 7 (by decide) (by decide)

/-- C5. Invalid truncation length is rejected: `TruncatedFinal(mac, size)` raises
exactly when size < 4, or size > `DIGESTSIZE` = 4 + `T::DIGESTSIZE`, or the counter is
0xffffffff, and succeeds in every other case; in particular it raises when size is 0 or
greater than the digest size. -/
theorem TruncatedFinal_raises_iff (T : HashT) (S : Scaffold) (s : XMACC_Base) (size : Nat) :
    ((∃ e, TruncatedFinal T S s size = .error e)
        ↔ (size < 4 ∨ size > DIGESTSIZE T ∨ s.m_counter = 0xffffffff))
      ∧ ((∃ r, TruncatedFinal T S s size = .ok r)
        ↔ ¬ (size < 4 ∨ size > DIGESTSIZE T ∨ s.m_counter = 0xffffffff))
      ∧ (size = 0 ∨ size > DIGESTSIZE T → ∃ e, TruncatedFinal T S s size = .error e)
      ∧ DIGESTSIZE T = 4 + T.DIGESTSIZE := by
  have key := TruncatedFinal_error T S s size
  have good : ¬ (size < 4 ∨ size > DIGESTSIZE T ∨ s.m_counter = 0xffffffff)
      → ∃ r, TruncatedFinal T S s size = .ok r := by
    intro h
    exact ⟨_, TruncatedFinal_eq T S s size (by omega) (by omega) (by omega)⟩
  refine ⟨⟨?_, fun h => ⟨_, key h⟩⟩, ⟨?_, good⟩, ?_, rfl⟩
  · rintro ⟨e, he⟩
    by_contra hn
    obtain ⟨r, hr⟩ := good hn
    rw [hr] at he
    cases he
  · rintro ⟨r, hr⟩ hn
    rw [key hn] at hr
    cases hr
  · intro h
    exact ⟨_, key (by omega)⟩

/-- C6. The number of `word32` elements declared for `Panama::m_state` is
17*2 + STAGES*sizeof(Stage) with `sizeof(Stage)` = 32 bytes, that is 1058, and not the
32 * 8 + 34 = 290 words that 32 stages of 8 words and a 34-word accumulator take. -/
theorem m_state_declared_size :
    Panama.m_state_size = 1058
      ∧ Panama.STAGES * Panama.Stage_length + 34 = 290
      ∧ Panama.m_state_size ≠ Panama.STAGES * Panama.Stage_length + 34 := by
  decide

/-- C8. Verification does not need the counter: for a size between 4 and `DIGESTSIZE`,
`TruncatedVerify` returns (it does not raise), leaves the counter as it was, and with
any other value in the counter, 0xffffffff included, returns the same boolean and
leaves the same object but for that counter. -/
theorem TruncatedVerify_ignores_counter (T : HashT) (S : Scaffold) (s : XMACC_Base)
    (mac : List Nat) (size : Nat) (h4 : 4 ≤ size) (hsz : size ≤ DIGESTSIZE T) :
    ∃ r s', TruncatedVerify T S s mac size = .ok (r, s')
      ∧ CurrentCounter s' = CurrentCounter s
      ∧ ∀ c, TruncatedVerify T S { s with m_counter := c } mac size
          = .ok (r, { s' with m_counter := c }) := by
  refine ⟨_, _, TruncatedVerify_eq T S s mac size h4 hsz, ?_, ?_⟩
  · show (finishMessage T S s).m_counter = s.m_counter
    exact finishMessage_m_counter T S s
  · intro c
    rw [TruncatedVerify_eq T S _ mac size h4 hsz, finishMessage_counter]
    rfl

/-- C8, at the checksum instance: an object whose counter is 5, a 16-byte tag. -/
theorem TruncatedVerify_ignores_counter_witness :
    ∃ r s', TruncatedVerify checksumHash scaffold32 (rawObject checksumHash 5)
          [0, 0, 0, 1, 9, 9, 9, 9, 9, 9, 9, 9, 9, 9, 9, 9] 16 = .ok (r, s')
      ∧ CurrentCounter s' = CurrentCounter (rawObject checksumHash 5)
      ∧ ∀ c, TruncatedVerify checksumHash scaffold32
            { rawObject checksumHash 5 with m_counter := c }
            [0, 0, 0, 1, 9, 9, 9, 9, 9, 9, 9, 9, 9, 9, 9, 9] 16
          = .ok (r, { s' with m_counter := c }) :=
  TruncatedVerify_ignores_counter checksumHash scaffold32 (rawObject checksumHash 5)
    [0, 0, 0, 1, 9, 9, 9, 9, 9, 9, 9, 9, 9, 9, 9, 9] 16 (by decide) (by decide)

/-- C9. Counters are never reused under a key: along any sequence of calls without
`SetKey` or `Resynchronize` in which every `TruncatedFinal` succeeds, started at the
32-bit counter c, the k-th MAC begins with the big-endian encoding of c + k, which does
not exceed 0xffffffff (no wrap), the counter at the end is c plus the number of MACs,
any two of the MACs carry different counters, each successful `TruncatedFinal`
increases `CurrentCounter()` by exactly 1, and `TruncatedFinal` raises once the counter
is 0xffffffff. -/
theorem counters_never_reused (T : HashT) (S : Scaffold) (s s1 : XMACC_Base)
    (calls : List Call) (macs : List (List Nat)) (hs : s.m_counter < 2 ^ 32)
    (h : run T S s calls = .ok (macs, s1)) :
    (∀ k (hk : k < macs.length),
        macs[k].take 4 = WriteWord32 (CurrentCounter s + (k + 1))
          ∧ CurrentCounter s + (k + 1) ≤ 0xffffffff)
      ∧ CurrentCounter s1 = CurrentCounter s + macs.length
      ∧ (∀ j k (hj : j < macs.length) (hk : k < macs.length), j ≠ k →
          macs[j].take 4 ≠ macs[k].take 4)
      ∧ (∀ (t t1 : XMACC_Base) (size : Nat) (mac : List Nat), t.m_counter < 2 ^ 32 →
          TruncatedFinal T S t size = .ok (mac, t1) →
          CurrentCounter t1 = CurrentCounter t + 1 ∧ CurrentCounter t1 ≤ 0xffffffff)
      ∧ (∀ (t : XMACC_Base) (size : Nat), CurrentCounter t = 0xffffffff →
          ∃ e, TruncatedFinal T S t size = .error e) := by
  obtain ⟨h1, h2, h3⟩ := run_counter T S calls s s1 macs hs h
  simp only [CurrentCounter]
  have hb : ∀ k, k < macs.length → s.m_counter + (k + 1) < 2 ^ 32 := by
    intro k hk
    omega
  refine ⟨fun k hk => ⟨h3 k hk, ?_⟩, h1, ?_, ?_, ?_⟩
  · have := hb k hk
    omega
  · intro j k hj hk hjk heq
    rw [h3 j hj, h3 k hk] at heq
    have := WriteWord32_injective _ _ (hb j hj) (hb k hk) heq
    omega
  · intro t t1 size mac ht hf
    obtain ⟨hc, hc2, _⟩ := TruncatedFinal_ok T S t t1 size mac hf
    have hlt : t.m_counter + 1 < 2 ^ 32 := by omega
    rw [Nat.mod_eq_of_lt hlt] at hc2
    omega
  · intro t size ht
    exact ⟨_, TruncatedFinal_error T S t size (Or.inr (Or.inr ht))⟩

/-- C9, at the checksum instance: a key used from the counter 0xfffffffd on, two MACs
with a verification and further input between them. -/
theorem counters_never_reused_witness :
    (∀ k (hk : k < [[255, 255, 255, 254, 99, 128, 0, 0, 0, 0, 0, 0, 0, 0, 0, 0],
          [255, 255, 255, 255, 98, 103, 128, 0]].length),
        [[255, 255, 255, 254, 99, 128, 0, 0, 0, 0, 0, 0, 0, 0, 0, 0],
          [255, 255, 255, 255, 98, 103, 128, 0]][k].take 4
            = WriteWord32 (CurrentCounter (keyed checksumHash (rawObject checksumHash 0)
                [1, 2, 3, 4, 5, 6, 7, 8, 9, 10, 11, 12] 4294967293) + (k + 1))
          ∧ CurrentCounter (keyed checksumHash (rawObject checksumHash 0)
                [1, 2, 3, 4, 5, 6, 7, 8, 9, 10, 11, 12] 4294967293) + (k + 1) ≤ 0xffffffff)
      ∧ CurrentCounter ⟨[1, 2, 3, 4, 5, 6, 7, 8, 9, 10, 11, 12],
            [1, 2, 3, 4, 5, 6, 7, 8, 9, 10, 11, 12, 255, 255, 255, 255], 4294967295,
            2147483648, List.replicate 60 0 ++ [255, 255, 255, 255], List.replicate 16 0, 0, 0⟩
          = CurrentCounter (keyed checksumHash (rawObject checksumHash 0)
              [1, 2, 3, 4, 5, 6, 7, 8, 9, 10, 11, 12] 4294967293)
            + [[255, 255, 255, 254, 99, 128, 0, 0, 0, 0, 0, 0, 0, 0, 0, 0],
                [255, 255, 255, 255, 98, 103, 128, 0]].length
      ∧ (∀ j k (hj : j < [[255, 255, 255, 254, 99, 128, 0, 0, 0, 0, 0, 0, 0, 0, 0, 0],
            [255, 255, 255, 255, 98, 103, 128, 0]].length)
          (hk : k < [[255, 255, 255, 254, 99, 128, 0, 0, 0, 0, 0, 0, 0, 0, 0, 0],
            [255, 255, 255, 255, 98, 103, 128, 0]].length), j ≠ k →
          [[255, 255, 255, 254, 99, 128, 0, 0, 0, 0, 0, 0, 0, 0, 0, 0],
            [255, 255, 255, 255, 98, 103, 128, 0]][j].take 4
            ≠ [[255, 255, 255, 254, 99, 128, 0, 0, 0, 0, 0, 0, 0, 0, 0, 0],
              [255, 255, 255, 255, 98, 103, 128, 0]][k].take 4)
      ∧ (∀ (t t1 : XMACC_Base) (size : Nat) (mac : List Nat), t.m_counter < 2 ^ 32 →
          TruncatedFinal checksumHash scaffold32 t size = .ok (mac, t1) →
          CurrentCounter t1 = CurrentCounter t + 1 ∧ CurrentCounter t1 ≤ 0xffffffff)
      ∧ (∀ (t : XMACC_Base) (size : Nat), CurrentCounter t = 0xffffffff →
          ∃ e, TruncatedFinal checksumHash scaffold32 t size = .error e) :=
  counters_never_reused checksumHash scaffold32
    (keyed checksumHash (rawObject checksumHash 0) [1, 2, 3, 4, 5, 6, 7, 8, 9, 10, 11, 12]
      4294967293)
    ⟨[1, 2, 3, 4, 5, 6, 7, 8, 9, 10, 11, 12],
      [1, 2, 3, 4, 5, 6, 7, 8, 9, 10, 11, 12, 255, 255, 255, 255], 4294967295,
      2147483648, List.replicate 60 0 ++ [255, 255, 255, 255], List.replicate 16 0, 0, 0⟩
    [.Update [97], .TruncatedFinal 16, .TruncatedVerify [1, 2, 3, 4, 5] 5, .Update [98, 99],
      .TruncatedFinal 8]
    [[255, 255, 255, 254, 99, 128, 0, 0, 0, 0, 0, 0, 0, 0, 0, 0],
      [255, 255, 255, 255, 98, 103, 128, 0]]
    (by decide) (by rfl)

/-- C10. Finalisation leaves the object ready for the next message: after
`TruncatedFinal` succeeds or `TruncatedVerify` returns, the block index is 0x80000000,
the digest accumulator is all zero and the byte count is zero, and for every next
message the MAC or the verification result is that of a newly constructed object keyed
with the same key and the same current counter, whatever was processed before. -/
theorem ready_for_next_message (T : HashT) (S : Scaffold) (hwf : WF T S)
    (s s1 : XMACC_Base) (hs : Valid T s) (size : Nat) (tag : List Nat)
    (h : (∃ mac, TruncatedFinal T S s size = .ok (mac, s1))
      ∨ (∃ r, TruncatedVerify T S s tag size = .ok (r, s1))) :
    s1.m_index = 0x80000000 ∧ s1.m_digest = List.replicate T.DIGESTSIZE 0
      ∧ s1.m_countLo = 0 ∧ s1.m_countHi = 0
      ∧ ∀ o : XMACC_Base, Constructed T o →
        ∃ k, XMACC T o s.m_key (CurrentCounter s1) = .ok k ∧
          ∀ (msg : List Nat) (n : Nat) (mac : List Nat),
            (TruncatedFinal T S (Update T S s1 msg) n).map Prod.fst
                = (TruncatedFinal T S (Update T S k msg) n).map Prod.fst
              ∧ (TruncatedVerify T S (Update T S s1 msg) mac n).map Prod.fst
                = (TruncatedVerify T S (Update T S k msg) mac n).map Prod.fst := by
  obtain ⟨fv, _, _⟩ := finishMessage_agree T S hwf s s hs hs ⟨rfl, rfl, rfl, rfl, rfl, rfl⟩
  have hfk := finishMessage_m_key T S s
  rcases h with ⟨mac, h⟩ | ⟨r, h⟩
  · by_cases hb : size < 4 ∨ size > DIGESTSIZE T ∨ s.m_counter = 0xffffffff
    · rw [TruncatedFinal_error T S s size hb] at h
      cases h
    · rw [TruncatedFinal_eq T S s size (by omega) (by omega) (by omega)] at h
      injection h with h
      injection h with _ h
      obtain ⟨rv, rd⟩ := restart_state T S hwf (finishMessage T S s) fv
        (WriteWord32 ((s.m_counter + 1) % 2 ^ 32)) (Nat.le_of_eq (WriteWord32_length _))
        ((s.m_counter + 1) % 2 ^ 32)
      rw [h] at rv rd
      have hk : s1.m_key = s.m_key := by rw [← h, ← hfk]; rfl
      have hi : s1.m_index = 0x80000000 := by rw [← h]; rfl
      have hlo : s1.m_countLo = 0 := by rw [← h]; rfl
      have hhi : s1.m_countHi = 0 := by rw [← h]; rfl
      exact ⟨hi, rd, hlo, hhi, fun o ho => ready_after T S hwf s1 s.m_key rv hk hi rd hlo hhi o ho⟩
  · by_cases hb : 4 ≤ size ∧ size ≤ DIGESTSIZE T
    · rw [TruncatedVerify_eq T S s tag size hb.1 hb.2] at h
      injection h with h
      injection h with _ h
      obtain ⟨rv, rd⟩ := restart_state T S hwf (finishMessage T S s) fv
        (tag.take 4) (by rw [List.length_take]; omega) (finishMessage T S s).m_counter
      rw [h] at rv rd
      have hk : s1.m_key = s.m_key := by rw [← h, ← hfk]; rfl
      have hi : s1.m_index = 0x80000000 := by rw [← h]; rfl
      have hlo : s1.m_countLo = 0 := by rw [← h]; rfl
      have hhi : s1.m_countHi = 0 := by rw [← h]; rfl
      exact ⟨hi, rd, hlo, hhi, fun o ho => ready_after T S hwf s1 s.m_key rv hk hi rd hlo hhi o ho⟩
    · rw [TruncatedVerify_error T S s tag size hb] at h
      cases h

/-- C10, at the checksum instance: a 16-byte MAC generated on an object whose counter
is 3. -/
theorem ready_for_next_message_witness :
    (2147483648 : Nat) = 0x80000000
      ∧ List.replicate 16 0 = List.replicate checksumHash.DIGESTSIZE 0
      ∧ (0 : Nat) = 0 ∧ (0 : Nat) = 0
      ∧ ∀ o : XMACC_Base, Constructed checksumHash o →
        ∃ k, XMACC checksumHash o (rawObject checksumHash 3).m_key
            (CurrentCounter ⟨List.replicate 12 3, List.replicate 12 3 ++ [0, 0, 0, 4], 4,
              2147483648, List.replicate 60 0 ++ [0, 0, 0, 4], List.replicate 16 0, 0, 0⟩)
            = .ok k ∧
          ∀ (msg : List Nat) (n : Nat) (mac : List Nat),
            (TruncatedFinal checksumHash scaffold32 (Update checksumHash scaffold32
                  ⟨List.replicate 12 3, List.replicate 12 3 ++ [0, 0, 0, 4], 4, 2147483648,
                    List.replicate 60 0 ++ [0, 0, 0, 4], List.replicate 16 0, 0, 0⟩ msg)
                  n).map Prod.fst
                = (TruncatedFinal checksumHash scaffold32
                    (Update checksumHash scaffold32 k msg) n).map Prod.fst
              ∧ (TruncatedVerify checksumHash scaffold32 (Update checksumHash scaffold32
                  ⟨List.replicate 12 3, List.replicate 12 3 ++ [0, 0, 0, 4], 4, 2147483648,
                    List.replicate 60 0 ++ [0, 0, 0, 4], List.replicate 16 0, 0, 0⟩ msg)
                  mac n).map Prod.fst
                = (TruncatedVerify checksumHash scaffold32
                    (Update checksumHash scaffold32 k msg) mac n).map Prod.fst :=
  ready_for_next_message checksumHash scaffold32 checksum_wf (rawObject checksumHash 3)
    ⟨List.replicate 12 3, List.replicate 12 3 ++ [0, 0, 0, 4], 4, 2147483648,
      List.replicate 60 0 ++ [0, 0, 0, 4], List.replicate 16 0, 0, 0⟩
    ⟨List.length_replicate _ _, List.length_replicate _ _, List.length_replicate _ _,
      List.length_replicate _ _⟩
    16 []
    (Or.inl ⟨[0, 0, 0, 4, 131, 3, 3, 3, 3, 3, 3, 3, 3, 3, 3, 3], by rfl⟩)

/-! ## The accumulator over a sequence of blocks -/

namespace XMACC_Base

theorem Init_fields (T : HashT) (s : XMACC_Base) (hs : Valid T s) :
    Valid T (Init T s) ∧ (Init T s).m_digest = List.replicate T.DIGESTSIZE 0 := by
  have e : memset s.m_digest 0 0 T.DIGESTSIZE = List.replicate T.DIGESTSIZE 0 := by
    unfold memset
    exact memcpy_zero_full _ _ (by rw [hs.digest_length, List.length_replicate])
  refine ⟨⟨hs.key_length, hs.buffer_length, hs.data_length, ?_⟩, e⟩
  show (memset s.m_digest 0 0 T.DIGESTSIZE).length = _
  rw [e, List.length_replicate]

theorem chainingValue_length (T : HashT) (S : Scaffold) (hwf : WF T S) (key : List Nat)
    (hk : key.length = KEYLENGTH T) (p : Nat × List Nat) :
    (chainingValue T key p).length = T.DIGESTSIZE := by
  unfold chainingValue
  rw [hwf.T_transform_length, keyedBuffer_length T S hwf _ _ hk]

theorem foldl_vTransform (T : HashT) (S : Scaffold) (hwf : WF T S)
    (blocks : List (List Nat)) :
    ∀ (t : XMACC_Base) (k : Nat), Valid T t → t.m_index = 0x80000000 + k →
      k + blocks.length < 2 ^ 31 →
      Valid T (blocks.foldl (vTransform T) t)
        ∧ (blocks.foldl (vTransform T) t).m_key = t.m_key
        ∧ (blocks.foldl (vTransform T) t).m_index = 0x80000000 + (k + blocks.length)
        ∧ (blocks.foldl (vTransform T) t).m_digest
          = ((blocks.enumFrom (k + 1)).map (chainingValue T t.m_key)).foldl (XorDigest T)
              t.m_digest := by
  induction blocks with
  | nil =>
    intro t k ht hi _
    exact ⟨ht, rfl, hi, rfl⟩
  | cons b rest ih =>
    intro t k ht hi hk
    rw [List.length_cons] at hk
    have hidx : (t.m_index + 1) % 2 ^ 32 = 0x80000000 + (k + 1) := by
      rw [hi]
      omega
    have hv := vTransform_valid T S hwf t ht b
    have he := vTransform_eq T S hwf t ht b
    rw [hidx] at he
    have h1 : (vTransform T t b).m_index = 0x80000000 + (k + 1) := by rw [he]
    have h2 : (vTransform T t b).m_key = t.m_key := by rw [he]
    have h3 : (vTransform T t b).m_digest
        = XorDigest T t.m_digest (chainingValue T t.m_key (k + 1, b)) := by rw [he]; rfl
    obtain ⟨i1, i2, i3, i4⟩ := ih (vTransform T t b) (k + 1) hv h1 (by omega)
    refine ⟨i1, i2.trans h2, ?_, ?_⟩
    · rw [List.foldl_cons, i3, List.length_cons]
      omega
    · rw [List.foldl_cons, i4, h2, h3]
      rfl

theorem XorDigest_eq_zipWith (T : HashT) (S : Scaffold) (hwf : WF T S) (d b : List Nat)
    (hd : d.length = T.DIGESTSIZE) :
    XorDigest T d b = List.zipWith (fun x y => x ^^^ y) d (b.take T.DIGESTSIZE) := by
  have hn : T.DIGESTSIZE / T.WORDSIZE * T.WORDSIZE = T.DIGESTSIZE :=
    Nat.div_mul_cancel hwf.word_dvd_digest
  unfold XorDigest
  simp only [hn]
  rw [List.take_of_length_le (Nat.le_of_eq hd), List.drop_eq_nil_of_le (Nat.le_of_eq hd),
    List.append_nil]

theorem foldl_XorDigest (T : HashT) (S : Scaffold) (hwf : WF T S)
    (vals : List (List Nat)) :
    ∀ init : List Nat, init.length = T.DIGESTSIZE → (∀ v ∈ vals, v.length = T.DIGESTSIZE) →
      vals.foldl (XorDigest T) init
        = vals.foldl (fun acc v => List.zipWith (fun a b => a ^^^ b) acc v) init := by
  induction vals with
  | nil => intro init _ _; rfl
  | cons v rest ih =>
    intro init hi hv
    have hvl : v.length = T.DIGESTSIZE := hv v (List.mem_cons_self _ _)
    have e : XorDigest T init v = List.zipWith (fun a b => a ^^^ b) init v := by
      rw [XorDigest_eq_zipWith T S hwf init v hi, List.take_of_length_le (Nat.le_of_eq hvl)]
    rw [List.foldl_cons, List.foldl_cons, e]
    apply ih
    · rw [List.length_zipWith, hi, hvl, Nat.min_self]
    · intro w hw
      exact hv w (List.mem_cons_of_mem _ hw)

theorem zipWith_xor_right_comm :
    ∀ z x y : List Nat,
      List.zipWith (fun a b => a ^^^ b) (List.zipWith (fun a b => a ^^^ b) z x) y
        = List.zipWith (fun a b => a ^^^ b) (List.zipWith (fun a b => a ^^^ b) z y) x := by
  intro z
  induction z with
  | nil => intro x y; simp
  | cons a z ih =>
    intro x y
    cases x with
    | nil => cases y <;> simp
    | cons b x =>
      cases y with
      | nil => simp
      | cons c y =>
        simp only [List.zipWith_cons_cons, List.cons.injEq]
        exact ⟨by rw [Nat.xor_assoc, Nat.xor_comm b c, ← Nat.xor_assoc], ih x y⟩

theorem xorAll_perm (T : HashT) (l₁ l₂ : List (List Nat)) (h : l₁.Perm l₂) :
    xorAll T l₁ = xorAll T l₂ := by
  unfold xorAll
  exact h.foldl_eq' (fun x _ y _ z => zipWith_xor_right_comm z x y) _

end XMACC_Base

/-- C11. XOR-accumulated block digests: starting from `Init`, after `vTransform` has
processed the blocks b_1..b_n (n < 2^31), the accumulator `m_digest` is the xor over
i = 1..n of the chaining value `T::Transform` produces from the initial buffer
`CorrectEndianess(key || big-endian32(0x80000000 + i))` and the block b_i; it is
therefore the same whatever the order in which the (index, block) pairs are folded in. -/
theorem xor_accumulated_digest (T : HashT) (S : Scaffold) (hwf : WF T S) (s : XMACC_Base)
    (hs : Valid T s) (blocks : List (List Nat)) (hn : blocks.length < 2 ^ 31) :
    (blocks.foldl (vTransform T) (Init T s)).m_digest
        = xorAll T ((blocks.enumFrom 1).map (chainingValue T s.m_key))
      ∧ ∀ pairs : List (Nat × List Nat), pairs.Perm (blocks.enumFrom 1) →
        xorAll T (pairs.map (chainingValue T s.m_key))
          = (blocks.foldl (vTransform T) (Init T s)).m_digest := by
  obtain ⟨hv, hd⟩ := Init_fields T s hs
  obtain ⟨_, _, _, h4⟩ := foldl_vTransform T S hwf blocks (Init T s) 0 hv rfl (by omega)
  have hfold : (blocks.foldl (vTransform T) (Init T s)).m_digest
      = xorAll T ((blocks.enumFrom 1).map (chainingValue T s.m_key)) := by
    rw [h4, hd]
    exact foldl_XorDigest T S hwf _ _ (List.length_replicate _ _) (by
      intro v hv
      obtain ⟨p, _, rfl⟩ := List.mem_map.mp hv
      exact chainingValue_length T S hwf _ hs.key_length p)
  refine ⟨hfold, fun pairs hp => ?_⟩
  rw [hfold]
  exact xorAll_perm T _ _ (hp.map _)

/-- C11, at the checksum instance: two 64-byte blocks. -/
theorem xor_accumulated_digest_witness :
    ([List.replicate 64 1, List.replicate 64 2].foldl (vTransform checksumHash)
          (Init checksumHash (rawObject checksumHash 3))).m_digest
        = xorAll checksumHash (([List.replicate 64 1, List.replicate 64 2].enumFrom 1).map
            (chainingValue checksumHash (rawObject checksumHash 3).m_key))
      ∧ ∀ pairs : List (Nat × List Nat),
        pairs.Perm ([List.replicate 64 1, List.replicate 64 2].enumFrom 1) →
        xorAll checksumHash (pairs.map (chainingValue checksumHash
            (rawObject checksumHash 3).m_key))
          = ([List.replicate 64 1, List.replicate 64 2].foldl (vTransform checksumHash)
              (Init checksumHash (rawObject checksumHash 3))).m_digest :=
  xor_accumulated_digest checksumHash scaffold32 checksum_wf (rawObject checksumHash 3)
    ⟨List.length_replicate _ _, List.length_replicate _ _, List.length_replicate _ _,
      List.length_replicate _ _⟩
    [List.replicate 64 1, List.replicate 64 2] (by decide)

namespace XMACC_Base

theorem WriteWord32_mod (v : Nat) : WriteWord32 (v % 2 ^ 32) = WriteWord32 v := by
  simp only [WriteWord32, Nat.shiftRight_eq_div_pow, List.cons.injEq, and_true]
  omega

theorem PutWord_eq (v : Nat) : PutWord v = WriteWord32 v := by
  simp only [PutWord, WriteWord32, Nat.shiftRight_eq_div_pow]

theorem counterBlock_m_buffer (T : HashT) (S : Scaffold) (hwf : WF T S) (t : XMACC_Base)
    (ht : Valid T t) (ctr : List Nat) :
    (counterBlock T t ctr).m_buffer
      = T.Transform (keyedBuffer T t.m_key 0) (counterBlock T t ctr).m_data := by
  unfold counterBlock
  dsimp only
  rw [buffer_setup T S hwf _ _ _ ht.buffer_length ht.key_length]

theorem foldl_take_succ (T : HashT) (blocks : List (List Nat)) (t : XMACC_Base) (j : Nat)
    (hj : j < blocks.length) :
    (blocks.take (j + 1)).foldl (vTransform T) t
      = vTransform T ((blocks.take j).foldl (vTransform T) t) blocks[j] := by
  rw [← List.take_concat_get blocks j hj, List.concat_eq_append, List.foldl_append]
  rfl

end XMACC_Base

/-- C15. Domain separation of block indices: when `vTransform` processes fewer than
2^31 blocks from `Init` on, the index word mixed with the key for the i-th block
(1-based) is 0x80000000 + i, a 32-bit word with its top bit set and never 0, so its
encoding is never that of the index 0, which the final counter block mixes with the
key; blocks at different positions get different index words. The bound is sharp: the
block after index 0xffffffff, the 2^31-th, gets the index 0. -/
theorem block_index_separation (T : HashT) (S : Scaffold) (hwf : WF T S) (s : XMACC_Base)
    (hs : Valid T s) (blocks : List (List Nat)) (hn : blocks.length < 2 ^ 31) :
    (∀ j (hj : j < blocks.length),
        ((blocks.take (j + 1)).foldl (vTransform T) (Init T s)).m_index = 0x80000000 + (j + 1)
          ∧ ((blocks.take (j + 1)).foldl (vTransform T) (Init T s)).m_buffer
            = T.Transform (keyedBuffer T s.m_key (0x80000000 + (j + 1))) blocks[j]
          ∧ 2 ^ 31 ≤ 0x80000000 + (j + 1) ∧ 0x80000000 + (j + 1) < 2 ^ 32
          ∧ 0x80000000 + (j + 1) ≠ 0
          ∧ WriteWord32 (0x80000000 + (j + 1)) ≠ WriteWord32 0)
      ∧ (∀ i j, i < blocks.length → j < blocks.length → i ≠ j →
          WriteWord32 (0x80000000 + (i + 1)) ≠ WriteWord32 (0x80000000 + (j + 1)))
      ∧ (∀ (t : XMACC_Base) (ctr : List Nat), Valid T t →
          (counterBlock T t ctr).m_buffer
            = T.Transform (keyedBuffer T t.m_key 0) (counterBlock T t ctr).m_data)
      ∧ (∀ (t : XMACC_Base) (b : List Nat), t.m_index = 0xffffffff →
          (vTransform T t b).m_index = 0) := by
  obtain ⟨hv, _⟩ := Init_fields T s hs
  refine ⟨fun j hj => ?_, fun i j hi hj hij heq => ?_,
    fun t ctr ht => counterBlock_m_buffer T S hwf t ht ctr,
    fun t b ht => by show (t.m_index + 1) % 2 ^ 32 = 0; rw [ht]; rfl⟩
  · have hl : (blocks.take j).length = j := by
      rw [List.length_take]
      omega
    obtain ⟨v1, k1, i1, _⟩ := foldl_vTransform T S hwf (blocks.take j) (Init T s) 0 hv rfl
      (by rw [hl]; omega)
    rw [hl, Nat.zero_add] at i1
    have hidx : (((blocks.take j).foldl (vTransform T) (Init T s)).m_index + 1) % 2 ^ 32
        = 0x80000000 + (j + 1) := by
      rw [i1]
      omega
    have he := vTransform_eq T S hwf _ v1 blocks[j]
    rw [hidx, k1] at he
    rw [foldl_take_succ T blocks (Init T s) j hj, he]
    refine ⟨rfl, rfl, by omega, by omega, by omega, fun h => ?_⟩
    have := WriteWord32_injective _ _ (by omega) (by omega) h
    omega
  · have := WriteWord32_injective _ _ (by omega) (by omega) heq
    omega

/-- C15, at the checksum instance: two 64-byte blocks. -/
theorem block_index_separation_witness :
    (∀ j (hj : j < [List.replicate 64 1, List.replicate 64 2].length),
        (([List.replicate 64 1, List.replicate 64 2].take (j + 1)).foldl
            (vTransform checksumHash) (Init checksumHash (rawObject checksumHash 3))).m_index
            = 0x80000000 + (j + 1)
          ∧ (([List.replicate 64 1, List.replicate 64 2].take (j + 1)).foldl
            (vTransform checksumHash) (Init checksumHash (rawObject checksumHash 3))).m_buffer
            = checksumHash.Transform
                (keyedBuffer checksumHash (rawObject checksumHash 3).m_key
                  (0x80000000 + (j + 1)))
                [List.replicate 64 1, List.replicate 64 2][j]
          ∧ 2 ^ 31 ≤ 0x80000000 + (j + 1) ∧ 0x80000000 + (j + 1) < 2 ^ 32
          ∧ 0x80000000 + (j + 1) ≠ 0
          ∧ WriteWord32 (0x80000000 + (j + 1)) ≠ WriteWord32 0)
      ∧ (∀ i j, i < [List.replicate 64 1, List.replicate 64 2].length →
          j < [List.replicate 64 1, List.replicate 64 2].length → i ≠ j →
          WriteWord32 (0x80000000 + (i + 1)) ≠ WriteWord32 (0x80000000 + (j + 1)))
      ∧ (∀ (t : XMACC_Base) (ctr : List Nat), Valid checksumHash t →
          (counterBlock checksumHash t ctr).m_buffer
            = checksumHash.Transform (keyedBuffer checksumHash t.m_key 0)
                (counterBlock checksumHash t ctr).m_data)
      ∧ (∀ (t : XMACC_Base) (b : List Nat), t.m_index = 0xffffffff →
          (vTransform checksumHash t b).m_index = 0) :=
  block_index_separation checksumHash scaffold32 checksum_wf (rawObject checksumHash 3)
    ⟨List.length_replicate _ _, List.length_replicate _ _, List.length_replicate _ _,
      List.length_replicate _ _⟩
    [List.replicate 64 1, List.replicate 64 2] (by decide)

namespace XMACC_Base

theorem GetWord_eq_bigEndian32 (IV : List Nat) (hlen : IV.length = 4)
    (hb : ∀ b ∈ IV, b < 256) : GetWord IV = bigEndian32 IV := by
  match IV, hlen with
  | [a, b, c, d], _ =>
    have ha : a < 256 := hb a (by simp)
    have hb2 : b < 256 := hb b (by simp)
    have hc : c < 256 := hb c (by simp)
    have hd : d < 256 := hb d (by simp)
    simp only [GetWord, bigEndian32, List.getD_cons_zero, List.getD_cons_succ,
      List.foldl_cons, List.foldl_nil]
    omega

theorem WriteWord32_bytes (c : Nat) : ∀ b ∈ WriteWord32 c, b < 256 := by
  intro b hb
  simp only [WriteWord32, List.mem_cons, List.mem_singleton, List.not_mem_nil, or_false] at hb
  rcases hb with h | h | h | h <;> rw [h] <;> exact Nat.mod_lt _ (by decide)

theorem Resynchronize_m_counter (T : HashT) (s : XMACC_Base) (IV : List Nat) :
    (Resynchronize T s IV).m_counter = GetWord IV := rfl

end XMACC_Base

/-- C12. Resynchronisation sets the counter from the IV: after `Resynchronize(IV)` on a
4-byte IV, `CurrentCounter()` is the big-endian 32-bit value of the IV; the four bytes
`WriteWord32(c)` writes for a 32-bit value c decode back to c under that reading, so
`Resynchronize` applied to the encoding of c leaves the counter c. -/
theorem resynchronize_sets_counter (T : HashT) (s : XMACC_Base) (IV : List Nat) (c : Nat)
    (hlen : IV.length = 4) (hb : ∀ b ∈ IV, b < 256) (hc : c < 2 ^ 32) :
    CurrentCounter (Resynchronize T s IV) = bigEndian32 IV
      ∧ (WriteWord32 c).length = 4 ∧ (∀ b ∈ WriteWord32 c, b < 256)
      ∧ bigEndian32 (WriteWord32 c) = c
      ∧ CurrentCounter (Resynchronize T s (WriteWord32 c)) = c := by
  have h1 : bigEndian32 (WriteWord32 c) = c := by
    rw [← GetWord_eq_bigEndian32 _ (WriteWord32_length c) (WriteWord32_bytes c),
      GetWord_WriteWord32, Nat.mod_eq_of_lt hc]
  refine ⟨?_, WriteWord32_length c, WriteWord32_bytes c, h1, ?_⟩
  · show (Resynchronize T s IV).m_counter = _
    rw [Resynchronize_m_counter, GetWord_eq_bigEndian32 IV hlen hb]
  · show (Resynchronize T s (WriteWord32 c)).m_counter = _
    rw [Resynchronize_m_counter, GetWord_WriteWord32, Nat.mod_eq_of_lt hc]

/-- C12, at the IV 1, 2, 3, 4 and the value 0xfffffffe. -/
theorem resynchronize_sets_counter_witness :
    CurrentCounter (Resynchronize checksumHash (rawObject checksumHash 3) [1, 2, 3, 4])
        = bigEndian32 [1, 2, 3, 4]
      ∧ (WriteWord32 0xfffffffe).length = 4 ∧ (∀ b ∈ WriteWord32 0xfffffffe, b < 256)
      ∧ bigEndian32 (WriteWord32 0xfffffffe) = 0xfffffffe
      ∧ CurrentCounter (Resynchronize checksumHash (rawObject checksumHash 3)
          (WriteWord32 0xfffffffe)) = 0xfffffffe :=
  resynchronize_sets_counter checksumHash (rawObject checksumHash 3) [1, 2, 3, 4] 0xfffffffe
    rfl (by decide) (by decide)

/-- C13. `GetNextIV` predicts the counter of the next MAC: it raises if and only if the
counter is 0xffffffff; otherwise it leaves the object as it is and writes the
big-endian encoding of counter + 1, which is the first 4 bytes of the MAC that the next
successful `TruncatedFinal` on that object produces, whatever is absorbed before it. -/
theorem GetNextIV_predicts_counter (T : HashT) (S : Scaffold) (s s1 : XMACC_Base)
    (hc : s.m_counter ≠ 0xffffffff) (msg : List Nat) (size : Nat) (mac : List Nat)
    (hfin : TruncatedFinal T S (Update T S s msg) size = .ok (mac, s1)) :
    GetNextIV s = .ok (WriteWord32 (s.m_counter + 1), s)
      ∧ mac.take 4 = WriteWord32 (s.m_counter + 1)
      ∧ ∀ t : XMACC_Base, (∃ e, GetNextIV t = .error e) ↔ t.m_counter = 0xffffffff := by
  refine ⟨?_, ?_, fun t => ?_⟩
  · unfold GetNextIV
    rw [if_neg hc, PutWord_eq, WriteWord32_mod]
  · obtain ⟨_, _, hm⟩ := TruncatedFinal_ok T S _ s1 size mac hfin
    rw [hm, Update_m_counter, WriteWord32_mod]
  · unfold GetNextIV
    by_cases ht : t.m_counter = 0xffffffff
    · rw [if_pos ht]
      exact ⟨fun _ => ht, fun _ => ⟨_, rfl⟩⟩
    · rw [if_neg ht]
      constructor
      · rintro ⟨e, he⟩
        cases he
      · intro h
        exact absurd h ht

/-- C13, at the checksum instance: an object whose counter is 3 absorbs one byte and
writes a 16-byte MAC. -/
theorem GetNextIV_predicts_counter_witness :
    GetNextIV (rawObject checksumHash 3)
        = .ok (WriteWord32 ((rawObject checksumHash 3).m_counter + 1), rawObject checksumHash 3)
      ∧ [0, 0, 0, 4, 100, 131, 3, 3, 3, 3, 3, 3, 3, 3, 3, 3].take 4
        = WriteWord32 ((rawObject checksumHash 3).m_counter + 1)
      ∧ ∀ t : XMACC_Base, (∃ e, GetNextIV t = .error e) ↔ t.m_counter = 0xffffffff :=
  GetNextIV_predicts_counter checksumHash scaffold32 (rawObject checksumHash 3)
    ⟨List.replicate 12 3, List.replicate 12 3 ++ [0, 0, 0, 4], 4, 2147483648,
      List.replicate 60 0 ++ [0, 0, 0, 4], List.replicate 16 0, 0, 0⟩
    (by decide) [97] 16 [0, 0, 0, 4, 100, 131, 3, 3, 3, 3, 3, 3, 3, 3, 3, 3] (by rfl)

namespace XMACC_Base

theorem take_four_of_take (t : List Nat) (size : Nat) (h4 : 4 ≤ size) :
    t.take 4 = (t.take size).take 4 := by
  rw [List.take_take, Nat.min_eq_left h4]

theorem compared_bytes_of_take (t : List Nat) (size : Nat) :
    (t.drop 4).take (size - 4) = (t.take size).drop 4 := by
  rw [List.drop_take]

theorem memcpy_twice (buf w x : List Nat) (hw : w.length = 4) :
    memcpy (memcpy buf 0 w) 4 x = memcpy buf 0 (w ++ x) := by
  have e1 : memcpy buf 0 w = w ++ buf.drop 4 := by
    simp [memcpy, hw]
  have e2 : (w ++ buf.drop 4).take 4 = w := take_four_append _ _ hw
  have e3 : (w ++ buf.drop 4).drop (4 + x.length) = buf.drop (4 + x.length) := by
    rw [← hw, List.drop_append, List.drop_drop, hw]
  rw [e1]
  unfold memcpy
  rw [e2, e3]
  simp [hw]

theorem TruncatedFinalEffect_ok (T : HashT) (S : Scaffold) (t t1 : XMACC_Base)
    (buf mac : List Nat) (size : Nat) (h : TruncatedFinal T S t size = .ok (mac, t1)) :
    TruncatedFinalEffect T S t buf size = (none, t1, memcpy buf 0 mac) := by
  by_cases hb : size < 4 ∨ size > DIGESTSIZE T ∨ t.m_counter = 0xffffffff
  · rw [TruncatedFinal_error T S t size hb] at h
    cases h
  · have h0 : ¬ (size = 0 ∨ size > DigestSize T) := by
      unfold DigestSize
      omega
    have h1 : ¬ size < 4 := by omega
    have hc : t.m_counter ≠ 0xffffffff := by omega
    rw [TruncatedFinal_eq T S t size (by omega) (by omega) hc] at h
    injection h with h
    injection h with hm ht
    unfold TruncatedFinalEffect ThrowIfInvalidTruncatedSize
    simp only [h0, h1, hc, if_false, finishMessage_m_counter]
    rw [← hm, ← ht, ← memcpy_twice _ _ _ (WriteWord32_length _)]
    rfl

end XMACC_Base

/-- C14. `TruncatedVerify` compares exactly the tag bytes 4..size-1 with the recomputed
digest: for a size with 4 < size <= `DIGESTSIZE`, changing the byte at an index from 4
to size-1 of a tag that verifies makes `TruncatedVerify` return false, and two tags with
the same first `size` bytes get the same result: bytes at an index of `size` or more
are not looked at. -/
theorem TruncatedVerify_compares_digest_bytes (T : HashT) (S : Scaffold) (s s1 : XMACC_Base)
    (tag : List Nat) (size : Nat) (h4 : 4 < size) (hsz : size ≤ DIGESTSIZE T)
    (hlen : size ≤ tag.length) (hvalid : TruncatedVerify T S s tag size = .ok (true, s1))
    (i : Nat) (hi : 4 ≤ i) (hi2 : i < size) (v : Nat) (hv : v ≠ tag.getD i 0) :
    TruncatedVerify T S s (tag.set i v) size = .ok (false, s1)
      ∧ ∀ t1 t2 : List Nat, t1.take size = t2.take size →
        TruncatedVerify T S s t1 size = TruncatedVerify T S s t2 size := by
  constructor
  · rw [TruncatedVerify_eq T S s tag size (by omega) hsz] at hvalid
    injection hvalid with hvalid
    injection hvalid with hd hs1
    have hd' := of_decide_eq_true hd
    have e1 : (tag.set i v).take 4 = tag.take 4 := by
      rw [List.set_take, List.set_eq_of_length_le]
      rw [List.length_take]
      omega
    have e2 : ((tag.set i v).drop 4).take (size - 4)
        = ((tag.drop 4).take (size - 4)).set (i - 4) v := by
      rw [List.drop_set, if_neg (by omega), List.set_take]
    have hl : ((tag.drop 4).take (size - 4)).length = size - 4 := by
      rw [List.length_take, List.length_drop]
      omega
    have hne : ((tag.drop 4).take (size - 4)).set (i - 4) v
        ≠ (tag.drop 4).take (size - 4) := by
      apply set_ne_self _ _ _ (by rw [hl]; omega)
      rw [List.getD_eq_getElem?_getD, List.getElem?_take, if_pos (by omega),
        List.getElem?_drop, show 4 + (i - 4) = i by omega, ← List.getD_eq_getElem?_getD]
      exact hv
    rw [TruncatedVerify_eq T S s _ size (by omega) hsz, e1, e2, ← hd', hs1]
    simp only [hne, decide_False]
  · intro t1 t2 h
    by_cases hb : 4 ≤ size ∧ size ≤ DIGESTSIZE T
    · rw [TruncatedVerify_eq T S s t1 size hb.1 hb.2,
        TruncatedVerify_eq T S s t2 size hb.1 hb.2, take_four_of_take t1 size hb.1,
        take_four_of_take t2 size hb.1, compared_bytes_of_take t1,
        compared_bytes_of_take t2, h]
    · rw [TruncatedVerify_error T S s t1 size hb, TruncatedVerify_error T S s t2 size hb]

/-- C14, at the checksum instance: a tag that verifies at size 10, followed by two
bytes that are not part of it; its byte 5 is changed to 7. -/
theorem TruncatedVerify_compares_digest_bytes_witness :
    TruncatedVerify checksumHash scaffold32
        (Update checksumHash scaffold32 (rawObject checksumHash 3) [97])
        ([0, 0, 0, 4, 100, 131, 3, 3, 3, 3, 3, 3, 3, 3, 3, 3, 55, 66].set 5 7) 10
        = .ok (false, ⟨List.replicate 12 3, List.replicate 12 3 ++ [0, 0, 0, 4], 3, 2147483648,
            List.replicate 60 0 ++ [0, 0, 0, 4], List.replicate 16 0, 0, 0⟩)
      ∧ ∀ t1 t2 : List Nat, t1.take 10 = t2.take 10 →
        TruncatedVerify checksumHash scaffold32
            (Update checksumHash scaffold32 (rawObject checksumHash 3) [97]) t1 10
          = TruncatedVerify checksumHash scaffold32
            (Update checksumHash scaffold32 (rawObject checksumHash 3) [97]) t2 10 :=
  TruncatedVerify_compares_digest_bytes checksumHash scaffold32
    (Update checksumHash scaffold32 (rawObject checksumHash 3) [97])
    ⟨List.replicate 12 3, List.replicate 12 3 ++ [0, 0, 0, 4], 3, 2147483648,
      List.replicate 60 0 ++ [0, 0, 0, 4], List.replicate 16 0, 0, 0⟩
    [0, 0, 0, 4, 100, 131, 3, 3, 3, 3, 3, 3, 3, 3, 3, 3, 55, 66] 10 (by decide) (by decide)
    (by decide) (by rfl) 5 (by decide) (by decide) 7 (by decide)

/-- C16. Failed MAC generation is atomic: when `TruncatedFinal` raises (size < 4,
size > `DIGESTSIZE`, or counter = 0xffffffff) the object, with its counter, block index,
digest accumulator and buffered message data, and the output buffer are as they were
before the call, so a later call behaves as if the failed call had not been made; a
call that succeeds leaves the new object and the MAC at the start of the buffer. -/
theorem failed_generation_is_atomic (T : HashT) (S : Scaffold) (s : XMACC_Base)
    (buf : List Nat) (size : Nat)
    (hfail : size < 4 ∨ size > DIGESTSIZE T ∨ s.m_counter = 0xffffffff) :
    TruncatedFinalEffect T S s buf size = (some .InvalidArgument, s, buf)
      ∧ TruncatedFinal T S s size = .error .InvalidArgument
      ∧ (∀ size2, TruncatedFinalEffect T S (TruncatedFinalEffect T S s buf size).2.1
            (TruncatedFinalEffect T S s buf size).2.2 size2
          = TruncatedFinalEffect T S s buf size2)
      ∧ (∀ (msg : List Nat) (size2 : Nat) (mac : List Nat) (s1 : XMACC_Base),
          TruncatedFinal T S (Update T S s msg) size2 = .ok (mac, s1) →
          TruncatedFinalEffect T S
              (Update T S (TruncatedFinalEffect T S s buf size).2.1 msg)
              (TruncatedFinalEffect T S s buf size).2.2 size2
            = (none, s1, memcpy buf 0 mac)) := by
  have h : TruncatedFinalEffect T S s buf size = (some .InvalidArgument, s, buf) := by
    unfold TruncatedFinalEffect ThrowIfInvalidTruncatedSize DigestSize
    by_cases h0 : size = 0 ∨ size > DIGESTSIZE T
    · simp only [h0, if_true]
    · simp only [h0, if_false]
      by_cases h1 : size < 4
      · simp only [h1, if_true]
      · have h2 : s.m_counter = 0xffffffff := by omega
        simp only [h1, h2, if_false, if_true]
  refine ⟨h, TruncatedFinal_error T S s size hfail, fun size2 => by rw [h],
    fun msg size2 mac s1 hok => ?_⟩
  rw [h]
  exact TruncatedFinalEffect_ok T S _ s1 buf mac size2 hok

/-- C16, at the checksum instance: a request for 3 bytes on an object that has absorbed
one byte. -/
theorem failed_generation_is_atomic_witness :
    TruncatedFinalEffect checksumHash scaffold32
        (Update checksumHash scaffold32 (rawObject checksumHash 3) [97]) [9, 9, 9, 9, 9] 3
        = (some .InvalidArgument,
            Update checksumHash scaffold32 (rawObject checksumHash 3) [97], [9, 9, 9, 9, 9])
      ∧ TruncatedFinal checksumHash scaffold32
          (Update checksumHash scaffold32 (rawObject checksumHash 3) [97]) 3
        = .error .InvalidArgument :=
  ⟨(failed_generation_is_atomic checksumHash scaffold32
      (Update checksumHash scaffold32 (rawObject checksumHash 3) [97]) [9, 9, 9, 9, 9] 3
      (Or.inl (by decide))).1,
    (failed_generation_is_atomic checksumHash scaffold32
      (Update checksumHash scaffold32 (rawObject checksumHash 3) [97]) [9, 9, 9, 9, 9] 3
      (Or.inl (by decide))).2.1⟩

end CryptoPP
